import Mathlib

/-!
Verification development for the BARS client engine.

The definitions below are a shallow embedding of the Rust sources:
* `src/shared/config/src/lib.rs` and `src/shared/config/src/map.rs`
  (the configuration data model and the framed container codec), and
* `src/client/src/client.rs` (the per-aerodrome state engine).

Modelling conventions:
* `usize`/`u32`/`u16`/`u8` become `Nat`; `i32` becomes `Int`; `f32` fields
  are carried as their 32-bit patterns (`Nat`), which is exact for
  serialisation purposes.
* `Ref<T>` (a phantom-typed `usize`) becomes a plain `Nat` index.
* `HashMap<String, _>` becomes an association list with replace-or-append
  insertion (`SMap`); `HashSet` becomes a list with membership-checked
  insertion.  Only lookups, sizes and membership are observed by the code,
  so iteration-order differences are immaterial.
* `Instant` becomes a `Nat` clock value threaded into the operations that
  read it.
* Rust panics on out-of-range indexing are totalised with `getD`-style
  defaults; the claims only exercise in-range configurations.
-/

namespace Bars

/-- `bars_config::NodeState`. -/

inductive NodeState where
  | off
  | on
deriving DecidableEq, Repr

/-- `bars_config::EdgeState`. -/

inductive EdgeState where
  | off
  | on
deriving DecidableEq, Repr

/-- `bars_config::BlockState`; `Route` carries two parent-node indices. -/

inductive BlockState where
  | clear
  | relax
  | route (a b : Nat)
deriving DecidableEq, Repr

/-- `bars_config::ResetCondition` (`u32` seconds as `Nat`). -/

inductive ResetCondition where
  | none
  | timeSecs (secs : Nat)
deriving DecidableEq, Repr

/-- `bars_config::NodeCondition`. -/

inductive NodeCondition where
  | fixed (state : NodeState)
  | direct (reset : ResetCondition)
  | router (sticky : Bool)
deriving DecidableEq, Repr

/-- `bars_config::BlockRoute` (a pair of child-node indices). -/

structure BlockRoute where
  from_ : Nat
  to_ : Nat
deriving DecidableEq, Repr

/-- `bars_config::NodeConjunction`. -/

structure NodeConjunction where
  positive : List Nat
  negative : List Nat
deriving DecidableEq, Repr

/-- `bars_config::NodeExpression`. -/

structure NodeExpression where
  disjunction : List NodeConjunction
deriving DecidableEq, Repr

/-- `bars_config::EdgeCondition`. -/

inductive EdgeCondition where
  | fixed (state : EdgeState)
  | direct (nodes : NodeExpression)
  | router (block : Nat) (routes : List BlockRoute)
deriving DecidableEq, Repr

/-- `bars_config::BlockCondition`. -/

structure BlockCondition where
  reset : ResetCondition
deriving DecidableEq, Repr

/-- `bars_config::Preset`. -/

structure Preset where
  name : String
  nodes : List (Nat × NodeState)
  blocks : List (Nat × BlockState)
deriving DecidableEq, Repr

/-- `bars_config::ElementCondition`. -/

inductive ElementCondition where
  | fixed (b : Bool)
  | node (n : Nat)
  | edge (e : Nat)
deriving DecidableEq, Repr

/-- `bars_config::Element`. -/

structure Element where
  id : String
  condition : ElementCondition
deriving DecidableEq, Repr

/-- `bars_config::Node`. -/

structure Node where
  id : String
  scratchpad : Option String
  parent : Option Nat
deriving DecidableEq, Repr

/-- `bars_config::Edge` (an empty struct). -/

structure Edge where
deriving DecidableEq, Repr

/-- `bars_config::Block`. -/

structure Block where
  id : String
  nodes : List Nat
  edges : List Nat
  non_routes : List BlockRoute
  stands : List String
deriving DecidableEq, Repr

/-- `bars_config::Profile`. -/

structure Profile where
  id : String
  name : String
  nodes : List NodeCondition
  edges : List EdgeCondition
  blocks : List BlockCondition
  presets : List Preset
deriving DecidableEq, Repr

/-- `bars_config::map::Point` (`f32` fields carried as 32-bit patterns). -/

structure Point where
  x : Nat
  y : Nat
deriving DecidableEq, Repr

/-- `bars_config::map::Geo`. -/

structure Geo where
  lat : Nat
  lon : Nat
deriving DecidableEq, Repr

/-- `bars_config::map::GeoPoint`. -/

structure GeoPoint where
  geo : Geo
  offset : Point
deriving DecidableEq, Repr

/-- `bars_config::map::Color` (`u8` fields as `Nat`). -/

structure Color where
  r : Nat
  g : Nat
  b : Nat
  a : Nat
deriving DecidableEq, Repr

/-- `bars_config::map::StrokeStyle` (`i32` as `Int`). -/

inductive StrokeStyle where
  | none
  | dash (n : Int)
deriving DecidableEq, Repr

/-- `bars_config::map::StrokeWidth` (newtype over `u8`). -/

structure StrokeWidth where
  val : Nat
deriving DecidableEq, Repr

/-- `bars_config::map::StrokeCap` (newtype over `i32`). -/

structure StrokeCap where
  val : Int
deriving DecidableEq, Repr

/-- `bars_config::map::StrokeJoin` (newtype over `i32`). -/

structure StrokeJoin where
  val : Int
deriving DecidableEq, Repr

/-- `bars_config::map::FillStyle`. -/

inductive FillStyle where
  | none
  | fill
  | hatch (n : Int)
deriving DecidableEq, Repr

/-- `bars_config::map::Style`. -/

structure Style where
  stroke_style : StrokeStyle
  stroke_width : StrokeWidth
  stroke_cap : StrokeCap
  stroke_join : StrokeJoin
  stroke_color : Color
  fill_style : FillStyle
  fill_color : Color
deriving DecidableEq, Repr

/-- `bars_config::map::Path<T>` (`style` is a `Ref<Style>` index). -/

structure Path (α : Type) where
  points : List α
  style : Nat
deriving DecidableEq, Repr

/-- `bars_config::map::Target<T>`. -/

structure Target (α : Type) where
  polygons : List (List α)
deriving DecidableEq, Repr

/-- `bars_config::map::NodeDisplay<T>`. -/

structure NodeDisplay (α : Type) where
  off : List (Path α)
  on_ : List (Path α)
  selected : List (Path α)
  target : Target α
deriving DecidableEq, Repr

/-- `bars_config::map::EdgeDisplay<T>`. -/

structure EdgeDisplay (α : Type) where
  off : List (Path α)
  on_ : List (Path α)
  pending : List (Path α)
deriving DecidableEq, Repr

/-- `bars_config::map::BlockDisplay<T>`. -/

structure BlockDisplay (α : Type) where
  target : Target α
deriving DecidableEq, Repr

/-- `bars_config::map::CountdownCondition`. -/

inductive CountdownCondition where
  | node (n : Nat)
  | block (b : Nat)
deriving DecidableEq, Repr

/-- `bars_config::map::Widget<T>` (`size` is an `f32` bit pattern). -/

inductive Widget (α : Type) where
  | countdown (position : α) (size : Nat) (condition : CountdownCondition)
deriving DecidableEq, Repr

/-- `bars_config::map::Box`. -/

structure Box where
  min : Point
  max : Point
deriving DecidableEq, Repr

/-- `bars_config::map::View`. -/

structure View where
  name : String
  bounds : Box
deriving DecidableEq, Repr

/-- `bars_config::map::GeoMap`. -/

structure GeoMap where
  nodes : List (NodeDisplay GeoPoint)
  edges : List (EdgeDisplay GeoPoint)
  blocks : List (BlockDisplay GeoPoint)
  widgets : List (Widget GeoPoint)
deriving DecidableEq, Repr

/-- `bars_config::map::Map`. -/

structure Map where
  background : Color
  base : List (Path Point)
  nodes : List (NodeDisplay Point)
  edges : List (EdgeDisplay Point)
  blocks : List (BlockDisplay Point)
  widgets : List (Widget Point)
  views : List View
deriving DecidableEq, Repr

/-- `bars_config::Aerodrome` (the configuration of one aerodrome). -/

structure Aerodrome where
  icao : String
  elements : List Element
  nodes : List Node
  edges : List Edge
  blocks : List Block
  profiles : List Profile
  geo_map : Option GeoMap
  maps : List Map
  styles : List Style
deriving DecidableEq, Repr

/-- `bars_config::Config` (the framed top-level container). -/

structure Config where
  name : Option String
  version : Option String
  aerodromes : List Aerodrome
deriving DecidableEq, Repr

/-- `bars_config::map::Maps` (the framed map container). -/

structure Maps where
  nodes : List String
  edges : List String
  blocks : List String
  geo_map : Option GeoMap
  maps : List Map
  styles : List Style
deriving DecidableEq, Repr

/-! ## Client-side state (`src/client/src/client.rs`) -/

/-- Association-list model of `HashMap<String, β>`: replace-or-append
insertion, first-match lookup.  Maps built from the empty list have
distinct keys, so size and lookup agree with the hash map. -/

abbrev SMap (β : Type) : Type := List (String × β)

instance (β : Type) [DecidableEq β] : DecidableEq (SMap β) :=
  inferInstanceAs (DecidableEq (List (String × β)))

def SMap.insert {β : Type} (m : SMap β) (k : String) (v : β) : SMap β :=
  match m with
  | [] => [(k, v)]
  | (k', v') :: rest =>
    if k' = k then (k, v) :: rest else (k', v') :: SMap.insert rest k v

def SMap.get {β : Type} (m : SMap β) (k : String) : Option β :=
  match m with
  | [] => Option.none
  | (k', v') :: rest => if k' = k then some v' else SMap.get rest k

def SMap.size {β : Type} (m : SMap β) : Nat := List.length m

/-- Association-list model of `HashMap<usize, Vec<usize>>` used for
`children`; `addChild` is `entry(k).or_default().push(v)`. -/

abbrev NMap : Type := List (Nat × List Nat)

def NMap.addChild (m : NMap) (k v : Nat) : NMap :=
  match m with
  | [] => [(k, [v])]
  | (k', l) :: rest =>
    if k' = k then (k, l ++ [v]) :: rest else (k', l) :: NMap.addChild rest k v

def NMap.get (m : NMap) (k : Nat) : Option (List Nat) :=
  match m with
  | [] => Option.none
  | (k', l) :: rest => if k' = k then some l else NMap.get rest k

instance : DecidableEq NMap :=
  inferInstanceAs (DecidableEq (List (Nat × List Nat)))

/-- `client::State<T>` — the dual-state cell. -/

structure StateCell (α : Type) where
  current : α
  pending : Option α
deriving DecidableEq, Repr

/-- `State::state`: the effective value (pending preferred). -/

def StateCell.state {α : Type} (c : StateCell α) : α :=
  c.pending.getD c.current

/-- `bars_protocol::BlockState`: block states on the wire carry node ids. -/

inductive IpcBlockState where
  | clear
  | relax
  | route (a b : String)
deriving DecidableEq, Repr

/-- `bars_protocol::Patch`. -/

structure Patch where
  profile : Option String
  nodes : SMap Bool
  blocks : SMap IpcBlockState
deriving DecidableEq

/-- `Patch::default()`. -/

def Patch.empty : Patch := { profile := Option.none, nodes := [], blocks := [] }

/-- Modelled from the spec: `crate::ActivityState` is declared outside the
given sources; §4.9 lists the states (None before any `Control` message,
then Controlling or Observing). -/

inductive ActivityState where
  | noneYet
  | observing
  | controlling
deriving DecidableEq, Repr

/-- The client-side `client::Aerodrome` state struct (named `AeroState`
here because `Aerodrome` names the configuration struct). -/

structure AeroState where
  config : Aerodrome
  state : ActivityState
  profile : Nat
  node_ids : SMap Nat
  block_ids : SMap Nat
  node_conns : List (List (Nat × Bool) × List (Nat × Bool))
  node_blocks : List (Nat × Nat)
  children : NMap
  nodes : List (StateCell Bool)
  blocks : List (StateCell BlockState)
  aircraft : List String
  pending_patch : Patch
  pending_nodes : List Nat
  previous_edges : List Bool
  node_dependencies : List (List Nat)
  edge_dependencies : List (List Nat)
  node_timers : List (Nat × Nat)
  block_timers : List (Nat × Nat)
deriving DecidableEq

/-- Default used to totalise out-of-range profile indexing. -/

def Profile.empty : Profile :=
  { id := "", name := "", nodes := [], edges := [], blocks := [], presets := [] }

def Node.empty : Node :=
  { id := "", scratchpad := Option.none, parent := Option.none }

def Block.empty : Block :=
  { id := "", nodes := [], edges := [], non_routes := [], stands := [] }

/-- `self.config.profiles[self.profile]`. -/

def AeroState.currentProfile (s : AeroState) : Profile :=
  s.config.profiles.getD s.profile Profile.empty

/-- `self.nodes[i]` (totalised). -/

def AeroState.nodeCell (s : AeroState) (i : Nat) : StateCell Bool :=
  s.nodes.getD i { current := false, pending := Option.none }

/-- `self.blocks[i]` (totalised). -/

def AeroState.blockCell (s : AeroState) (i : Nat) : StateCell BlockState :=
  s.blocks.getD i { current := BlockState.clear, pending := Option.none }

/-- `self.node_blocks[i]` (totalised). -/

def AeroState.nodeBlocksAt (s : AeroState) (i : Nat) : Nat × Nat :=
  s.node_blocks.getD i (0, 0)

/-- `self.node_conns[node][side]` (totalised). -/

def AeroState.connsAt (s : AeroState) (node : Nat) (side : Bool) : List (Nat × Bool) :=
  let p := s.node_conns.getD node ([], [])
  if side then p.2 else p.1

/-- In-place list update; out-of-range indices leave the list unchanged
(the corresponding Rust indexing would panic). -/

def modifyAt {α : Type} (l : List α) (i : Nat) (f : α → α) : List α :=
  match l, i with
  | [], _ => []
  | x :: xs, 0 => f x :: xs
  | x :: xs, n + 1 => x :: modifyAt xs n f

/-! ## Derived state (`node_state`, `route_candidates`, `edge_state`) -/

/-- `NodeConjunction::evaluate`. -/

def NodeConjunction.evaluate (c : NodeConjunction) (f : Nat → NodeState) : Bool :=
  c.positive.all (fun n => decide (f n = NodeState.on)) &&
    c.negative.all (fun n => decide (f n = NodeState.off))

/-- `NodeExpression::evaluate`. -/

def NodeExpression.evaluate (e : NodeExpression) (f : Nat → NodeState) : EdgeState :=
  if e.disjunction.any (fun c => c.evaluate f) then EdgeState.on else EdgeState.off

/-- `Aerodrome::bs_ipc_to_conf`. -/

def AeroState.bs_ipc_to_conf (s : AeroState) (st : IpcBlockState) : Option BlockState :=
  match st with
  | IpcBlockState.clear => some BlockState.clear
  | IpcBlockState.relax => some BlockState.relax
  | IpcBlockState.route a b =>
    match s.node_ids.get a, s.node_ids.get b with
    | some i, some j => some (BlockState.route i j)
    | _, _ => Option.none

/-- `Aerodrome::bs_conf_to_ipc`. -/

def AeroState.bs_conf_to_ipc (s : AeroState) (st : BlockState) : IpcBlockState :=
  match st with
  | BlockState.clear => IpcBlockState.clear
  | BlockState.relax => IpcBlockState.relax
  | BlockState.route a b =>
    IpcBlockState.route (s.config.nodes.getD a Node.empty).id
      (s.config.nodes.getD b Node.empty).id

/-- The closure inside `Aerodrome::node_state`'s `Router` arm: whether one
block's effective state leaves `node` lit. -/

def blockClearsNode (s : AeroState) (block : Nat) (node : Nat) : Bool :=
  match (s.blockCell block).state with
  | BlockState.clear => true
  | BlockState.relax => false
  | BlockState.route a b => decide (a ≠ node ∧ b ≠ node)

/-- `Aerodrome::node_state`. -/

def node_state (s : AeroState) (node : Nat) : Bool :=
  match s.currentProfile.nodes.getD node (NodeCondition.fixed NodeState.off) with
  | NodeCondition.fixed st => decide (st = NodeState.on)
  | NodeCondition.direct _ => (s.nodeCell node).state
  | NodeCondition.router _ =>
    let p := s.nodeBlocksAt node
    [p.1, p.2].any (fun b => blockClearsNode s b node)

/-- `Aerodrome::route_candidates`. -/

def route_candidates (s : AeroState) (block : Nat) : List (Nat × Nat) :=
  match (s.blockCell block).state with
  | BlockState.route ap bp =>
    let ac := (s.children.get ap).getD [ap]
    let bc := (s.children.get bp).getD [bp]
    let non := (s.config.blocks.getD block Block.empty).non_routes
    ac.foldl (fun acc a =>
      acc ++ (bc.filter fun b =>
        !(non.any fun r => decide (r = { from_ := a, to_ := b }))).map (fun b => (a, b))) []
  | _ => []

/-- The per-endpoint candidate restriction in `Aerodrome::edge_state`'s
`Router` arm (the loop over `[(ap, cands.0), (bp, cands.1)]`). -/

def restrictCands (s : AeroState) (block : Nat) (parent : Nat) (cands : List Nat) :
    List Nat :=
  let p := s.nodeBlocksAt parent
  let adjacent := if p.1 ≠ block then p.1 else p.2
  match (s.blockCell adjacent).state with
  | BlockState.clear => cands
  | BlockState.relax => []
  | BlockState.route a b =>
    let points := route_candidates s adjacent
    if a = parent then points.map (fun r => r.1)
    else if b = parent then points.map (fun r => r.2)
    else cands

/-- `Aerodrome::edge_state`. -/

def edge_state (s : AeroState) (edge : Nat) : Bool :=
  match s.currentProfile.edges.getD edge (EdgeCondition.fixed EdgeState.off) with
  | EdgeCondition.fixed st => decide (st = EdgeState.on)
  | EdgeCondition.direct expr =>
    decide (expr.evaluate (fun n =>
      if node_state s n then NodeState.on else NodeState.off) = EdgeState.on)
  | EdgeCondition.router block routes =>
    match (s.blockCell block).state with
    | BlockState.clear => false
    | BlockState.relax => true
    | BlockState.route ap bp =>
      let cands := route_candidates s block
      match cands with
      | [] => false
      | [(a, b)] => routes.any fun r => decide (r = { from_ := a, to_ := b })
      | _ =>
        let matchesA := routes.map (fun r => r.from_)
        let matchesB := routes.map (fun r => r.to_)
        let candsA := restrictCands s block ap (cands.map (fun r => r.1))
        let candsB := restrictCands s block bp (cands.map (fun r => r.2))
        candsA.all (fun x => matchesA.any fun y => decide (x = y)) &&
          candsB.all (fun x => matchesB.any fun y => decide (x = y))

/-- `Aerodrome::calculate_edges`. -/

def calculate_edges (s : AeroState) : List Bool :=
  (List.range s.config.edges.length).map (fun i => edge_state s i)

/-! ## State construction and reset -/

/-- `Aerodrome::set_default_state`. -/

def set_default_state (s : AeroState) (patch : Bool) : AeroState :=
  let blocks : List (StateCell BlockState) :=
    List.replicate s.config.blocks.length { current := BlockState.clear, pending := Option.none }
  let nodes : List (StateCell Bool) :=
    (List.range s.config.nodes.length).map (fun i =>
      { current :=
          match s.currentProfile.nodes.getD i (NodeCondition.fixed NodeState.off) with
          | NodeCondition.fixed st => decide (st = NodeState.on)
          | NodeCondition.direct reset => decide (reset ≠ ResetCondition.none)
          | _ => true
        pending := Option.none })
  let s := { s with nodes := nodes, blocks := blocks }
  let s :=
    if patch then
      { s with
        pending_patch :=
          { s.pending_patch with
            nodes := s.nodes.enum.foldl (fun (m : SMap Bool) p =>
              m.insert (s.config.nodes.getD p.1 Node.empty).id p.2.state) []
            blocks := s.blocks.enum.foldl (fun (m : SMap IpcBlockState) p =>
              m.insert (s.config.blocks.getD p.1 Block.empty).id (s.bs_conf_to_ipc p.2.state)) [] }
        pending_nodes := List.range s.nodes.length }
    else { s with previous_edges := calculate_edges s }
  { s with node_timers := [], block_timers := [] }

/-- Accumulator for the index-table construction in `Aerodrome::new`. -/

structure BuildSt where
  borders : List Nat
  node_conns : List (List (Nat × Bool) × List (Nat × Bool))
  node_blocks : List (Nat × Nat)
  block_ids : SMap Nat
deriving DecidableEq

/-- One iteration of the inner `for node in block.nodes` loop of
`Aerodrome::new`.  `node_blocks[n][1] = i; node_blocks[n][borders] = i`
collapses to `(i, i)` on a node's first occurrence and `(fst, i)`
afterwards; a third occurrence would panic in Rust after the `[1]` write. -/

def blockNodeStep (i : Nat) (block : Block) (conns : List (Nat × Bool))
    (st : BuildSt) (node : Nat) : BuildSt :=
  let β := st.borders.getD node 0
  let entries := (conns.filter fun q =>
    decide (q.1 ≠ node) &&
      !(block.non_routes.any fun r => decide (r = { from_ := node, to_ := q.1 })))
  { borders := st.borders.set node (β + 1)
    node_blocks := modifyAt st.node_blocks node (fun p => if β = 0 then (i, i) else (p.1, i))
    node_conns :=
      if β = 0 then modifyAt st.node_conns node (fun p => (p.1 ++ entries, p.2))
      else if β = 1 then modifyAt st.node_conns node (fun p => (p.1, p.2 ++ entries))
      else st.node_conns
    block_ids := st.block_ids }

/-- One iteration of the `for (i, block) in blocks.enumerate` loop of
`Aerodrome::new`. -/

def blockStep (st : BuildSt) (ib : Nat × Block) : BuildSt :=
  let conns := ib.2.nodes.map (fun node => (node, decide (st.borders.getD node 0 > 0)))
  let st := { st with block_ids := st.block_ids.insert ib.2.id ib.1 }
  ib.2.nodes.foldl (blockNodeStep ib.1 ib.2 conns) st

/-- `Aerodrome::new`. -/

def mkAerodrome (config : Aerodrome) : AeroState :=
  let n := config.nodes.length
  let node_ids : SMap Nat :=
    config.nodes.enum.foldl (fun m p => m.insert p.2.id p.1) []
  let children : NMap :=
    config.nodes.enum.foldl (fun m p =>
      match p.2.parent with
      | some parent => m.addChild parent p.1
      | Option.none => m) []
  let bst := config.blocks.enum.foldl blockStep
    { borders := List.replicate n 0
      node_conns := List.replicate n ([], [])
      node_blocks := List.replicate n (0, 0)
      block_ids := [] }
  let deps := config.elements.enum.foldl
    (fun (d : List (List Nat) × List (List Nat)) p =>
      match p.2.condition with
      | ElementCondition.fixed _ => d
      | ElementCondition.node nd => (modifyAt d.1 nd (fun l => l ++ [p.1]), d.2)
      | ElementCondition.edge e => (d.1, modifyAt d.2 e (fun l => l ++ [p.1])))
    (List.replicate config.nodes.length [], List.replicate config.edges.length [])
  let s : AeroState :=
    { config := config
      state := ActivityState.noneYet
      profile := 0
      node_ids := node_ids
      block_ids := bst.block_ids
      node_conns := bst.node_conns
      node_blocks := bst.node_blocks
      children := children
      nodes := []
      blocks := []
      aircraft := []
      pending_patch := Patch.empty
      pending_nodes := []
      previous_edges := []
      node_dependencies := deps.1
      edge_dependencies := deps.2
      node_timers := []
      block_timers := [] }
  set_default_state s false

/-! ## Operator commands and the server-patch reducer -/

/-- `Aerodrome::set_node_state`; `now` is the sampled `Instant::now()`. -/

def set_node_state (s : AeroState) (now : Nat) (node : Nat) (state : Bool) : AeroState :=
  let s := { s with
    nodes := modifyAt s.nodes node (fun c => { c with pending := some state })
    pending_patch := { s.pending_patch with
      nodes := s.pending_patch.nodes.insert (s.config.nodes.getD node Node.empty).id state }
    pending_nodes := s.pending_nodes ++ [node]
    node_timers := s.node_timers.filter (fun t => decide (t.1 ≠ node)) }
  if state then s
  else
    match s.currentProfile.nodes.getD node (NodeCondition.fixed NodeState.off) with
    | NodeCondition.direct (ResetCondition.timeSecs secs) =>
      { s with node_timers := s.node_timers ++ [(node, now + secs)] }
    | _ => s

/-- `Aerodrome::set_block_state`. -/

def set_block_state (s : AeroState) (now : Nat) (block : Nat) (state : BlockState) : AeroState :=
  let s := { s with
    blocks := modifyAt s.blocks block (fun c => { c with pending := some state })
    pending_patch := { s.pending_patch with
      blocks := s.pending_patch.blocks.insert (s.config.blocks.getD block Block.empty).id
        (s.bs_conf_to_ipc state) }
    block_timers := s.block_timers.filter (fun t => decide (t.1 ≠ block)) }
  if state ≠ BlockState.clear then
    match (s.currentProfile.blocks.getD block { reset := ResetCondition.none }).reset with
    | ResetCondition.timeSecs secs =>
      { s with block_timers := s.block_timers ++ [(block, now + secs)] }
    | _ => s
  else s

/-- `Aerodrome::set_profile`. -/

def set_profile (s : AeroState) (i : Nat) : AeroState :=
  if i ≥ s.config.profiles.length then s
  else
    let s := { s with
      profile := i
      pending_patch := { s.pending_patch with
        profile := some (s.config.profiles.getD i Profile.empty).id } }
    set_default_state s true

/-- One iteration of `apply_preset`'s node loop; `s0` is the state at
entry to `apply_preset` (only its immutable parts are consulted). -/

def presetNodeStep (s0 : AeroState) (acc : AeroState × SMap Bool) (p : Nat × NodeState) :
    AeroState × SMap Bool :=
  if p.1 < s0.nodes.length then
    ({ acc.1 with nodes := modifyAt acc.1.nodes p.1 (fun c => { c with pending := some (decide (p.2 = NodeState.on)) }) },
      acc.2.insert (s0.config.nodes.getD p.1 Node.empty).id (decide (p.2 = NodeState.on)))
  else acc

/-- One iteration of `apply_preset`'s block loop. -/

def presetBlockStep (s0 : AeroState) (acc : AeroState × SMap IpcBlockState)
    (p : Nat × BlockState) : AeroState × SMap IpcBlockState :=
  if p.1 < s0.blocks.length then
    ({ acc.1 with blocks := modifyAt acc.1.blocks p.1 (fun c => { c with pending := some p.2 }) },
      acc.2.insert (s0.config.blocks.getD p.1 Block.empty).id (s0.bs_conf_to_ipc p.2))
  else acc

/-- `self.config.profiles[self.profile].presets[i]` (totalised). -/

def presetAt (s : AeroState) (i : Nat) : Preset :=
  s.currentProfile.presets.getD i { name := "", nodes := [], blocks := [] }

/-- `Aerodrome::apply_preset`. -/

def apply_preset (s : AeroState) (i : Nat) : AeroState :=
  if i ≥ s.currentProfile.presets.length then s
  else
    let preset := presetAt s i
    let step1 := preset.nodes.foldl (presetNodeStep s) (s, [])
    let step2 := preset.blocks.foldl (presetBlockStep s) (step1.1, [])
    { step2.1 with
      pending_patch := { step2.1.pending_patch with nodes := step1.2, blocks := step2.2 }
      pending_nodes := preset.nodes.map (fun p => p.1)
      node_timers := []
      block_timers := [] }

/-- The per-entry body of `Aerodrome::apply_patch`'s node loop. -/

def patchNodeStep (s : AeroState) (p : String × Bool) : AeroState :=
  match s.node_ids.get p.1 with
  | some i =>
    if (s.nodeCell i).pending = some p.2 then
      { s with nodes := modifyAt s.nodes i (fun _ => { current := p.2, pending := Option.none }) }
    else
      { s with
        nodes := modifyAt s.nodes i (fun c => { c with current := p.2 })
        node_timers := s.node_timers.filter (fun t => decide (t.1 ≠ i)) }
  | Option.none => s

/-- The per-entry body of `Aerodrome::apply_patch`'s block loop. -/

def patchBlockStep (s : AeroState) (p : String × IpcBlockState) : AeroState :=
  match s.block_ids.get p.1 with
  | some i =>
    match s.bs_ipc_to_conf p.2 with
    | some state =>
      if (s.blockCell i).pending = some state then
        { s with blocks := modifyAt s.blocks i (fun _ => { current := state, pending := Option.none }) }
      else
        { s with
          blocks := modifyAt s.blocks i (fun c => { c with current := state })
          block_timers := s.block_timers.filter (fun t => decide (t.1 ≠ i)) }
    | Option.none => s
  | Option.none => s

/-- The profile part of `Aerodrome::apply_patch`. -/

def patchProfileStep (s : AeroState) (profile : Option String) : AeroState :=
  match profile with
  | some profile =>
    match s.config.profiles.enum.find? (fun p => p.2.id = profile) with
    | some p => { s with profile := p.1, node_timers := [], block_timers := [] }
    | Option.none => s
  | Option.none => s

/-- `Aerodrome::apply_patch`. -/

def apply_patch (s : AeroState) (patch : Patch) : AeroState :=
  patch.blocks.foldl patchBlockStep
    (patch.nodes.foldl patchNodeStep (patchProfileStep s patch.profile))

/-- The per-element value emitted by the full-refresh branch of
`Aerodrome::take_pending`. -/

def sceneryValue (s : AeroState) (next_edges : List Bool) (e : Element) : Bool :=
  match e.condition with
  | ElementCondition.fixed st => st
  | ElementCondition.edge k => next_edges.getD k false
  | ElementCondition.node nd => (s.nodeCell nd).state

/-- The full-refresh scenery built by `Aerodrome::take_pending` when a
profile change is pending. -/

def fullScenery (s : AeroState) (next_edges : List Bool) : SMap Bool :=
  s.config.elements.foldl
    (fun (m : SMap Bool) element => m.insert element.id (sceneryValue s next_edges element))
    []

/-- The diff scenery built by `Aerodrome::take_pending` otherwise.  Note
that the source binds the zipped pair `(next_edges[i], previous_edges[i])`
to the names `(prev, next)` and inserts `*next`, i.e. the value from
`previous_edges`; this is reproduced literally here. -/

def diffScenery (s : AeroState) (nodes : List Nat) (next_edges : List Bool) : SMap Bool :=
  let m := nodes.foldl
    (fun (m : SMap Bool) i =>
      (s.node_dependencies.getD i []).foldl
        (fun m el =>
          m.insert (s.config.elements.getD el { id := "", condition := ElementCondition.fixed false }).id
            ((s.nodeCell i).state))
        m)
    []
  (next_edges.zip s.previous_edges).enum.foldl
    (fun m p =>
      if p.2.1 ≠ p.2.2 then
        (s.edge_dependencies.getD p.1 []).foldl
          (fun m el =>
            m.insert (s.config.elements.getD el { id := "", condition := ElementCondition.fixed false }).id
              p.2.2)
          m
      else m)
    m

/-- `Aerodrome::take_pending`: returns the updated state together with the
`(patch, scenery)` pair. -/

def take_pending (s : AeroState) : AeroState × Patch × SMap Bool :=
  let next_edges := calculate_edges s
  let patch := s.pending_patch
  let nodes := s.pending_nodes
  let scenery :=
    if patch.profile.isSome then fullScenery s next_edges
    else diffScenery s nodes next_edges
  ({ s with pending_patch := Patch.empty, pending_nodes := [], previous_edges := next_edges },
    patch, scenery)

/-! ## Block cascade (`Aerodrome::set_block`)

The Rust loop pops from the end of a `Vec` (a stack) and `extend`s it;
the stack is modelled head-first, so `extend [a, b]` prepends `[b, a]`.
The fuel is a static over-approximation of the number of pops: every pop
consumes one stack entry, and entries are only added (at most two per
parent node) when a block is newly inserted into `visited`, which happens
at most once per block. -/

/-- Fuel bound for the cascade: `2 + 2 * Σ |blocks[b].nodes|`. -/

def cascadeFuel (s : AeroState) : Nat :=
  2 + 2 * s.config.blocks.foldl (fun a b => a + b.nodes.length) 0

/-- The `while let Some(block) = blocks.pop()` loop of `Aerodrome::set_block`. -/

def cascadeLoop (now : Nat) (state : BlockState) :
    Nat → AeroState → List Nat → List Nat → AeroState
  | 0, s, _, _ => s
  | fuel + 1, s, stack, visited =>
    match stack with
    | [] => s
    | block :: rest =>
      if block ∈ visited then cascadeLoop now state fuel s rest visited
      else
        let s := set_block_state s now block state
        let ext := ((s.config.blocks.getD block Block.empty).nodes.filter
          (fun nd => decide (s.currentProfile.nodes.getD nd (NodeCondition.fixed NodeState.on)
            = NodeCondition.fixed NodeState.off))).foldl
          (fun acc nd => acc ++ [(s.nodeBlocksAt nd).1, (s.nodeBlocksAt nd).2]) []
        cascadeLoop now state fuel s (ext.reverse ++ rest) (block :: visited)

/-- `Aerodrome::set_block`. -/

def set_block (s : AeroState) (now : Nat) (block : Nat) (state : BlockState) : AeroState :=
  if block ≥ s.blocks.length then s
  else cascadeLoop now state (cascadeFuel s) s [block] []

/-- `Aerodrome::set_node`. -/

def set_node (s : AeroState) (now : Nat) (node : Nat) (state : Bool) : AeroState :=
  if node ≥ s.nodes.length then s
  else
    match s.currentProfile.nodes.getD node (NodeCondition.fixed NodeState.off) with
    | NodeCondition.direct _ => set_node_state s now node state
    | _ => s

/-! ## Route solver (`Aerodrome::set_route`) -/

/-- A `(node, side)` key of the search graph. -/

abbrev Key : Type := Nat × Bool

/-- A queue entry `(node, side, distance)`. -/

abbrev QItem : Type := Nat × Bool × Nat

/-- First-match association lookup in the parent-pointer `chain` map. -/

def keyLookup (chain : List (Key × Key)) (k : Key) : Option Key :=
  match chain with
  | [] => Option.none
  | (k', v) :: rest => if k' = k then some v else keyLookup rest k

/-- The chain-reconstruction walk (`while let Some(item) = prev`), with the
1000-hop guard expressed as fuel: `none` models the `overflow` early
return.  Each recursive step is one push of the Rust loop. -/

def chainWalk (chain : List (Key × Key)) : Nat → Option Key → Option (List Key)
  | _, Option.none => some []
  | 0, some _ => Option.none
  | fuel + 1, some item => (chainWalk chain fuel (keyLookup chain item)).map (fun l => item :: l)

/-- Result of the search loop of `set_route`. -/

inductive RouteOutcome where
  | overflow
  | secondChain
  | finished (list : Option (List Key)) (revisited : List Key)
deriving DecidableEq, Repr

/-- One iteration of the `for (next_node, next_dir) in
node_conns[node][direction]` successor loop of `set_route`.  The
accumulator is `(queue, visited, chain, revisited)`. -/

def succStep (node : Nat) (direction : Bool) (distance : Nat) (transparent : Bool) :
    List QItem × List Key × List (Key × Key) × List Key → Nat × Bool →
    List QItem × List Key × List (Key × Key) × List Key
  | (q, vis, ch, rev), conn =>
    if ((conn.1, !conn.2) : Key) ∈ vis then
      (q, vis, ch,
        if ((conn.1, !conn.2) : Key) ∈ rev then rev else ((conn.1, !conn.2) : Key) :: rev)
    else
      ((if transparent then
          ((conn.1, !conn.2, distance + (if transparent then 0 else 1)) : QItem) :: q
        else q ++ [((conn.1, !conn.2, distance + (if transparent then 0 else 1)) : QItem)]),
        ((conn.1, !conn.2) : Key) :: vis,
        (((conn.1, !conn.2) : Key), (node, direction)) :: ch, rev)

/-- The whole successor loop for a popped `(node, direction, distance)`. -/

def expandSuccessors (s : AeroState) (node : Nat) (direction : Bool)
    (distance : Nat) (transparent : Bool)
    (acc : List QItem × List Key × List (Key × Key) × List Key) :
    List QItem × List Key × List (Key × Key) × List Key :=
  (s.connsAt node direction).foldl (succStep node direction distance transparent) acc

/-- The `while let Some((node, direction, distance)) = nodes.pop_front()`
loop of `set_route`; `none` is fuel exhaustion (shown unreachable for the
fuel chosen in `set_route` by theorem `C7`). -/

def routeLoop (s : AeroState) (dest : Nat) :
    Nat → List QItem → List Key → List (Key × Key) → Option (List Key) → List Key →
    Option RouteOutcome
  | 0, _, _, _, _, _ => Option.none
  | fuel + 1, queue, visited, chain, list, revisited =>
    match queue with
    | [] => some (RouteOutcome.finished list revisited)
    | (node, direction, distance) :: rest =>
      if s.currentProfile.nodes.getD node (NodeCondition.fixed NodeState.off)
          = NodeCondition.fixed NodeState.on then
        routeLoop s dest fuel rest visited chain list revisited
      else if node = dest then
        match list with
        | some _ => some RouteOutcome.secondChain
        | Option.none =>
          match chainWalk chain 1000 (some (node, direction)) with
          | Option.none => some RouteOutcome.overflow
          | some l =>
            if distance > 1 then routeLoop s dest fuel rest visited chain (some l) revisited
            else some (RouteOutcome.finished (some l) revisited)
      else
        routeLoop s dest fuel
          (expandSuccessors s node direction distance
            (decide (s.currentProfile.nodes.getD node (NodeCondition.fixed NodeState.off)
              = NodeCondition.fixed NodeState.off)) (rest, visited, chain, revisited)).1
          (expandSuccessors s node direction distance
            (decide (s.currentProfile.nodes.getD node (NodeCondition.fixed NodeState.off)
              = NodeCondition.fixed NodeState.off)) (rest, visited, chain, revisited)).2.1
          (expandSuccessors s node direction distance
            (decide (s.currentProfile.nodes.getD node (NodeCondition.fixed NodeState.off)
              = NodeCondition.fixed NodeState.off)) (rest, visited, chain, revisited)).2.2.1
          list
          (expandSuccessors s node direction distance
            (decide (s.currentProfile.nodes.getD node (NodeCondition.fixed NodeState.off)
              = NodeCondition.fixed NodeState.off)) (rest, visited, chain, revisited)).2.2.2

/-- Fuel bound for the search: each pop consumes one queue entry, the
queue starts with two entries, and entries are only appended when their
key is newly inserted into `visited` — at most once per connection entry. -/

def routeFuel (s : AeroState) : Nat :=
  3 + s.node_conns.foldl (fun a p => a + p.1.length + p.2.length) 0

/-- The chain commit: `for pair in list.windows(2)`. -/

def commitChain (now : Nat) : AeroState → List Key → AeroState
  | s, (n2, _) :: (n1, d1) :: rest =>
    let p := s.nodeBlocksAt n1
    let block := if d1 then p.2 else p.1
    commitChain now (set_block_state s now block (BlockState.route n1 n2)) ((n1, d1) :: rest)
  | s, _ => s

/-- Whether a node's active-profile condition is `Router { .. }`. -/

def isRouterNode (s : AeroState) (n : Nat) : Bool :=
  match s.currentProfile.nodes.getD n (NodeCondition.fixed NodeState.off) with
  | NodeCondition.router _ => true
  | _ => false

/-- The outcome of the search phase of `set_route` for given endpoints. -/

def routeSearch (s : AeroState) (orgn dest : Nat) : Option RouteOutcome :=
  routeLoop s dest (routeFuel s) [(orgn, false, 0), (orgn, true, 0)]
    [(orgn, false), (orgn, true)] [] Option.none []

/-- `Aerodrome::set_route`. -/

def set_route (s : AeroState) (now : Nat) (od : Nat × Nat) : AeroState :=
  if ¬(isRouterNode s od.1) ∨ ¬(isRouterNode s od.2) then s
  else
    match routeSearch s od.1 od.2 with
    | Option.none => s
    | some RouteOutcome.overflow => s
    | some RouteOutcome.secondChain => s
    | some (RouteOutcome.finished Option.none _) => s
    | some (RouteOutcome.finished (some list) revisited) =>
      if list.dropLast.any (fun k => decide (k ∈ revisited)) then s
      else commitChain now s list

/-! ## Concrete configurations used by counterexamples and witnesses -/

/-- A router-node condition. -/

def rtr : NodeCondition := NodeCondition.router false

def mkNode (id : String) : Node :=
  { id := id, scratchpad := Option.none, parent := Option.none }

def mkBlock (id : String) (ns : List Nat) : Block :=
  { id := id, nodes := ns, edges := [], non_routes := [], stands := [] }

def mkProfile (nconds : List NodeCondition) (nblocks : Nat) : Profile :=
  { id := "P0", name := "p", nodes := nconds, edges := []
    blocks := List.replicate nblocks { reset := ResetCondition.none }, presets := [] }

/-- Three router nodes; blocks `B0 {N0, N1}` and `B1 {N1, N2}`, so node 1
borders two blocks. -/

def cfgTwoBlocks : Aerodrome :=
  { icao := "TEST"
    elements := []
    nodes := [mkNode "N0", mkNode "N1", mkNode "N2"]
    edges := []
    blocks := [mkBlock "B0" [0, 1], mkBlock "B1" [1, 2]]
    profiles := [mkProfile [rtr, rtr, rtr] 2]
    geo_map := Option.none
    maps := []
    styles := [] }

/-- `cfgTwoBlocks` after the operator relaxes block 0: node 1's first
block is `Relax`, its second block is `Clear`. -/

def stRelaxed : AeroState := set_block (mkAerodrome cfgTwoBlocks) 0 0 BlockState.relax

/-- Four router nodes; two disjoint blocks `B0 {N0, N1}` and `B1 {N2, N3}`
(the S4 "simple route" scenario, plus an unrelated block). -/

def cfgSimpleRoute : Aerodrome :=
  { icao := "TEST"
    elements := []
    nodes := [mkNode "N0", mkNode "N1", mkNode "N2", mkNode "N3"]
    edges := []
    blocks := [mkBlock "B0" [0, 1], mkBlock "B1" [2, 3]]
    profiles := [mkProfile [rtr, rtr, rtr, rtr] 2]
    geo_map := Option.none
    maps := []
    styles := [] }

/-- Four router nodes in a diamond: `B0 {N0, N1}`, `B1 {N1, N3}`,
`B2 {N0, N2}`, `B3 {N2, N3}`.  A route request from 0 to 3 reaches the
destination along two distinct chains. -/

def cfgDiamond : Aerodrome :=
  { icao := "TEST"
    elements := []
    nodes := [mkNode "N0", mkNode "N1", mkNode "N2", mkNode "N3"]
    edges := []
    blocks := [mkBlock "B0" [0, 1], mkBlock "B1" [1, 3], mkBlock "B2" [0, 2], mkBlock "B3" [2, 3]]
    profiles := [mkProfile [rtr, rtr, rtr, rtr] 4]
    geo_map := Option.none
    maps := []
    styles := [] }

/-- Two elements sharing the id `"X"` with different fixed values. -/

def cfgDupElems : Aerodrome :=
  { icao := "TEST"
    elements := [ { id := "X", condition := ElementCondition.fixed true },
                  { id := "X", condition := ElementCondition.fixed false } ]
    nodes := []
    edges := []
    blocks := []
    profiles := [mkProfile [] 0]
    geo_map := Option.none
    maps := []
    styles := [] }

/-! ## C1: the router-node invariant -/

/-- One recorded block "clears" the node: effectively `Clear`, or a
`Route` not ending at the node (claim C1's complement vocabulary). -/

def ClearsProp (s : AeroState) (b n : Nat) : Prop :=
  (s.blockCell b).state = BlockState.clear ∨
    ∃ x y, (s.blockCell b).state = BlockState.route x y ∧ x ≠ n ∧ y ≠ n

/-- One recorded block "blocks" the node: effectively `Relax`, or a
`Route` with the node as an endpoint (claim C1's failure vocabulary). -/

def BlocksProp (s : AeroState) (b n : Nat) : Prop :=
  (s.blockCell b).state = BlockState.relax ∨
    ∃ x y, (s.blockCell b).state = BlockState.route x y ∧ (x = n ∨ y = n)

/-! ## C7: route-solver termination

The fuel given to `routeLoop` by `set_route` is shown sufficient: every
iteration pops one queue entry, and entries are only enqueued when their
key — always of the form `(n, !d)` for a connection entry `(n, d)` — is
newly inserted into the monotone `visited` set. -/

/-- Every key the search can ever enqueue. -/

def possibleKeys (s : AeroState) : List Key :=
  (s.node_conns.foldl (fun acc p => acc ++ p.1 ++ p.2) []).map (fun c => (c.1, !c.2))

/-- The number of possible keys not yet visited. -/

def cntFresh (P vis : List Key) : Nat :=
  (P.filter (fun k => decide (k ∉ vis))).length

/-- Two direct nodes and one block, with one preset
`{N0 ↦ Off, N1 ↦ On, B0 ↦ Relax}` in the single profile. -/

def cfgPreset : Aerodrome :=
  { icao := "TEST"
    elements := []
    nodes := [mkNode "N0", mkNode "N1"]
    edges := []
    blocks := [mkBlock "B0" [0, 1]]
    profiles := [
      { id := "P0"
        name := "p"
        nodes := [NodeCondition.direct ResetCondition.none,
          NodeCondition.direct ResetCondition.none]
        edges := []
        blocks := [{ reset := ResetCondition.none }]
        presets := [
          { name := "PR"
            nodes := [(0, NodeState.off), (1, NodeState.on)]
            blocks := [(0, BlockState.relax)] } ] } ]
    geo_map := Option.none
    maps := []
    styles := [] }

/-! ## C5 and C10: full scenery refresh after a profile change -/

/-- Two elements with a duplicated id, plus an (empty) preset. -/

def cfgDupPreset : Aerodrome :=
  { icao := "TEST"
    elements := [ { id := "X", condition := ElementCondition.fixed true },
                  { id := "X", condition := ElementCondition.fixed false } ]
    nodes := []
    edges := []
    blocks := []
    profiles := [
      { id := "P0", name := "p", nodes := [], edges := [], blocks := []
        presets := [ { name := "PR", nodes := [], blocks := [] } ] } ]
    geo_map := Option.none
    maps := []
    styles := [] }

/-- Two distinct-id elements, one direct node, one (empty) preset. -/

def cfgElems : Aerodrome :=
  { icao := "TEST"
    elements := [ { id := "E1", condition := ElementCondition.fixed true },
                  { id := "E2", condition := ElementCondition.node 0 } ]
    nodes := [mkNode "N0"]
    edges := []
    blocks := []
    profiles := [
      { id := "P0", name := "p"
        nodes := [NodeCondition.direct ResetCondition.none]
        edges := []
        blocks := []
        presets := [ { name := "PR", nodes := [], blocks := [] } ] } ]
    geo_map := Option.none
    maps := []
    styles := [] }

/-! ## C9: the `node_blocks` index table -/

/-- One block index per occurrence of node `n` among the parent-node lists
of the blocks in `L` (enumerated), in order. -/

def occsOf (L : List (Nat × Block)) (n : Nat) : List Nat :=
  L.flatMap (fun ib => (ib.2.nodes.filter (fun m => decide (m = n))).map (fun _ => ib.1))

/-- All block occurrences of node `n` in a configuration. -/

def blockOccs (c : Aerodrome) (n : Nat) : List Nat :=
  occsOf c.blocks.enum n

/-- Invariant carried through the `Aerodrome::new` block fold: the
`node_blocks` entry of `n` holds the first and last block occurrence seen
so far, and `borders[n]` counts the occurrences. -/

def NBInv (c : Aerodrome) (n : Nat) (st : BuildSt) (occs : List Nat) : Prop :=
  st.node_blocks.getD n (0, 0) = (occs.headD 0, occs.getLastD 0) ∧
  st.borders.getD n 0 = occs.length ∧
  st.node_blocks.length = c.nodes.length ∧
  st.borders.length = c.nodes.length

/-! ## C8: the configuration codec (`src/shared/config/src/lib.rs`)

The repository derives `bincode` `Encode`/`Decode` (standard
configuration) for its types and wraps the top-level containers in a
magic / big-endian-version / deflate frame.  The body codec below models
bincode's standard format: unsigned integers as the 251/252/253/254
variable-length encoding, signed integers zigzag-encoded, `f32` as its
four little-endian pattern bytes, `u8` as a single byte, collections
length-prefixed, options with a 0/1 tag, enum discriminants as (small)
varints, and struct fields in declaration order; strings are carried as
length-prefixed scalar values.  Deflate itself is third-party code and is
abstracted as an arbitrary lossless `compress`/`decompress` pair.
Validity (`val`) expresses Rust well-typedness of the `Nat`/`Int`-modelled
machine integers. -/

/-- A byte-level codec with its round-trip proof. -/

structure Codec (α : Type) where
  enc : α → List Nat
  dec : List Nat → Option (α × List Nat)
  val : α → Bool
  rt : ∀ (a : α) (rest : List Nat), val a = true → dec (enc a ++ rest) = some (a, rest)

def Codec.map {α β : Type} (c : Codec α) (f : α → β) (g : β → α)
    (h : ∀ b, f (g b) = b) : Codec β :=
  { enc := fun b => c.enc (g b)
    dec := fun l =>
      match c.dec l with
      | some p => some (f p.1, p.2)
      | Option.none => Option.none
    val := fun b => c.val (g b)
    rt := by
      intro b rest hv
      show (match c.dec (c.enc (g b) ++ rest) with
        | some p => some (f p.1, p.2)
        | Option.none => Option.none) = _
      rw [c.rt (g b) rest hv]
      show some (f (g b), rest) = _
      rw [h] }

def Codec.pair {α β : Type} (ca : Codec α) (cb : Codec β) : Codec (α × β) :=
  { enc := fun p => ca.enc p.1 ++ cb.enc p.2
    dec := fun l =>
      match ca.dec l with
      | some p =>
        match cb.dec p.2 with
        | some q => some ((p.1, q.1), q.2)
        | Option.none => Option.none
      | Option.none => Option.none
    val := fun p => ca.val p.1 && cb.val p.2
    rt := by
      intro p rest hv
      simp only [Bool.and_eq_true] at hv
      obtain ⟨hva, hvb⟩ := hv
      show (match ca.dec ((ca.enc p.1 ++ cb.enc p.2) ++ rest) with
        | some p => match cb.dec p.2 with
          | some q => some ((p.1, q.1), q.2)
          | Option.none => Option.none
        | Option.none => Option.none) = _
      rw [List.append_assoc, ca.rt p.1 _ hva]
      show (match cb.dec (cb.enc p.2 ++ rest) with
        | some q => some ((p.1, q.1), q.2)
        | Option.none => Option.none) = _
      rw [cb.rt p.2 rest hvb] }

def Codec.restrict {α : Type} (c : Codec α) (p : α → Bool)
    (h : ∀ a, p a = true → c.val a = true) : Codec α :=
  { enc := c.enc
    dec := c.dec
    val := p
    rt := fun a r hp => c.rt a r (h a hp) }

/-- Little-endian fixed-width bytes. -/

def leBytes : Nat → Nat → List Nat
  | 0, _ => []
  | k + 1, n => n % 256 :: leBytes k (n / 256)

def decLE : Nat → List Nat → Option (Nat × List Nat)
  | 0, l => some (0, l)
  | k + 1, l =>
    match l with
    | [] => Option.none
    | b :: r =>
      match decLE k r with
      | some p => some (b + 256 * p.1, p.2)
      | Option.none => Option.none

/-- The fixed-width little-endian codec (`f32` bit patterns use `k = 4`). -/

def leCodec (k : Nat) : Codec Nat :=
  { enc := leBytes k
    dec := decLE k
    val := fun n => decide (n < 256 ^ k)
    rt := by
      have hs : ∀ (j n : Nat) (rest : List Nat), n < 256 ^ j →
          decLE j (leBytes j n ++ rest) = some (n, rest) := by
        intro j
        induction j with
        | zero =>
          intro n rest h
          rw [Nat.pow_zero] at h
          have hn : n = 0 := by omega
          subst hn
          rfl
        | succ j ih =>
          intro n rest h
          show (match decLE j (leBytes j (n / 256) ++ rest) with
            | some p => some (n % 256 + 256 * p.1, p.2)
            | Option.none => Option.none) = _
          rw [ih (n / 256) rest ((Nat.div_lt_iff_lt_mul (by norm_num)).mpr
            (by rw [pow_succ] at h; exact h))]
          show some (n % 256 + 256 * (n / 256), rest) = _
          rw [Nat.mod_add_div]
      intro n rest h
      exact hs k n rest (of_decide_eq_true h) }

/-- bincode's standard variable-length unsigned integer encoding. -/

def varintEnc (n : Nat) : List Nat :=
  if n < 251 then [n]
  else if n < 2 ^ 16 then 251 :: leBytes 2 n
  else if n < 2 ^ 32 then 252 :: leBytes 4 n
  else if n < 2 ^ 64 then 253 :: leBytes 8 n
  else 254 :: leBytes 16 n

def varintDec (l : List Nat) : Option (Nat × List Nat) :=
  match l with
  | [] => Option.none
  | b :: r =>
    if b < 251 then some (b, r)
    else if b = 251 then decLE 2 r
    else if b = 252 then decLE 4 r
    else if b = 253 then decLE 8 r
    else if b = 254 then decLE 16 r
    else Option.none

def varintCodec : Codec Nat :=
  { enc := varintEnc
    dec := varintDec
    val := fun n => decide (n < 2 ^ 128)
    rt := by
      intro n rest h
      have hn : n < 2 ^ 128 := of_decide_eq_true h
      show varintDec (varintEnc n ++ rest) = some (n, rest)
      unfold varintEnc
      by_cases h1 : n < 251
      · rw [if_pos h1]
        show (if n < 251 then some (n, rest)
          else if n = 251 then decLE 2 rest
          else if n = 252 then decLE 4 rest
          else if n = 253 then decLE 8 rest
          else if n = 254 then decLE 16 rest
          else Option.none) = _
        rw [if_pos h1]
      · rw [if_neg h1]
        by_cases h2 : n < 2 ^ 16
        · rw [if_pos h2]
          show (if (251 : Nat) < 251 then some ((251 : Nat), leBytes 2 n ++ rest)
            else if (251 : Nat) = 251 then decLE 2 (leBytes 2 n ++ rest)
            else if (251 : Nat) = 252 then decLE 4 (leBytes 2 n ++ rest)
            else if (251 : Nat) = 253 then decLE 8 (leBytes 2 n ++ rest)
            else if (251 : Nat) = 254 then decLE 16 (leBytes 2 n ++ rest)
            else Option.none) = _
          rw [if_neg (by norm_num), if_pos rfl]
          exact (leCodec 2).rt n rest (by
            show decide (n < 256 ^ 2) = true
            simp only [decide_eq_true_eq]
            norm_num at h2 ⊢
            omega)
        · rw [if_neg h2]
          by_cases h3 : n < 2 ^ 32
          · rw [if_pos h3]
            show (if (252 : Nat) < 251 then some ((252 : Nat), leBytes 4 n ++ rest)
              else if (252 : Nat) = 251 then decLE 2 (leBytes 4 n ++ rest)
              else if (252 : Nat) = 252 then decLE 4 (leBytes 4 n ++ rest)
              else if (252 : Nat) = 253 then decLE 8 (leBytes 4 n ++ rest)
              else if (252 : Nat) = 254 then decLE 16 (leBytes 4 n ++ rest)
              else Option.none) = _
            rw [if_neg (by norm_num), if_neg (by norm_num), if_pos rfl]
            exact (leCodec 4).rt n rest (by
              show decide (n < 256 ^ 4) = true
              simp only [decide_eq_true_eq]
              norm_num at h3 ⊢
              omega)
          · rw [if_neg h3]
            by_cases h4 : n < 2 ^ 64
            · rw [if_pos h4]
              show (if (253 : Nat) < 251 then some ((253 : Nat), leBytes 8 n ++ rest)
                else if (253 : Nat) = 251 then decLE 2 (leBytes 8 n ++ rest)
                else if (253 : Nat) = 252 then decLE 4 (leBytes 8 n ++ rest)
                else if (253 : Nat) = 253 then decLE 8 (leBytes 8 n ++ rest)
                else if (253 : Nat) = 254 then decLE 16 (leBytes 8 n ++ rest)
                else Option.none) = _
              rw [if_neg (by norm_num), if_neg (by norm_num), if_neg (by norm_num),
                if_pos rfl]
              exact (leCodec 8).rt n rest (by
                show decide (n < 256 ^ 8) = true
                simp only [decide_eq_true_eq]
                norm_num at h4 ⊢
                omega)
            · rw [if_neg h4]
              show (if (254 : Nat) < 251 then some ((254 : Nat), leBytes 16 n ++ rest)
                else if (254 : Nat) = 251 then decLE 2 (leBytes 16 n ++ rest)
                else if (254 : Nat) = 252 then decLE 4 (leBytes 16 n ++ rest)
                else if (254 : Nat) = 253 then decLE 8 (leBytes 16 n ++ rest)
                else if (254 : Nat) = 254 then decLE 16 (leBytes 16 n ++ rest)
                else Option.none) = _
              rw [if_neg (by norm_num), if_neg (by norm_num), if_neg (by norm_num),
                if_neg (by norm_num), if_pos rfl]
              exact (leCodec 16).rt n rest (by
                show decide (n < 256 ^ 16) = true
                simp only [decide_eq_true_eq]
                norm_num at hn ⊢
                omega) }

/-- `u16` (varint-encoded, bounded). -/

def u16Codec : Codec Nat :=
  varintCodec.restrict (fun n => decide (n < 2 ^ 16))
    (by intro a h; show decide (a < 2 ^ 128) = true
        simp only [decide_eq_true_eq] at h ⊢; omega)

/-- `u32` (varint-encoded, bounded). -/

def u32Codec : Codec Nat :=
  varintCodec.restrict (fun n => decide (n < 2 ^ 32))
    (by intro a h; show decide (a < 2 ^ 128) = true
        simp only [decide_eq_true_eq] at h ⊢; omega)

/-- `u64` / `usize` (varint-encoded, bounded). -/

def u64Codec : Codec Nat :=
  varintCodec.restrict (fun n => decide (n < 2 ^ 64))
    (by intro a h; show decide (a < 2 ^ 128) = true
        simp only [decide_eq_true_eq] at h ⊢; omega)

/-- `u8`: a single byte. -/

def u8Codec : Codec Nat :=
  { enc := fun n => [n]
    dec := fun l =>
      match l with
      | [] => Option.none
      | b :: r => some (b, r)
    val := fun n => decide (n < 256)
    rt := fun _ _ _ => rfl }

def boolCodec : Codec Bool :=
  { enc := fun b => [if b then 1 else 0]
    dec := fun l =>
      match l with
      | 0 :: r => some (false, r)
      | 1 :: r => some (true, r)
      | _ => Option.none
    val := fun _ => true
    rt := by intro b rest _; cases b <;> rfl }

/-- Zigzag encoding of signed integers (bincode standard). -/

def zigzagEnc (i : Int) : Nat :=
  if 0 ≤ i then 2 * i.toNat else 2 * (-i).toNat - 1

def zigzagDec (m : Nat) : Int :=
  if m % 2 = 0 then ((m / 2 : Nat) : Int) else -(((m / 2 : Nat) : Int) + 1)

/-- `i32` (zigzag varint, bounded to the `i32` range). -/

def i32Codec : Codec Int :=
  (varintCodec.map zigzagDec zigzagEnc (by
      intro i
      unfold zigzagEnc zigzagDec
      by_cases h : 0 ≤ i
      · rw [if_pos h, if_pos (by omega)]
        omega
      · rw [if_neg h, if_neg (by omega)]
        omega)).restrict
    (fun i => decide (-(2 ^ 31) ≤ i ∧ i < 2 ^ 31))
    (by
      intro a h
      simp only [decide_eq_true_eq] at h
      show decide (zigzagEnc a < 2 ^ 128) = true
      simp only [decide_eq_true_eq]
      unfold zigzagEnc
      split <;> omega)

/-- A `char` scalar value (varint of the code point). -/

def charCodec : Codec Char :=
  { enc := fun c => varintEnc c.toNat
    dec := fun l =>
      match varintDec l with
      | some p => some (Char.ofNat p.1, p.2)
      | Option.none => Option.none
    val := fun _ => true
    rt := by
      intro c rest _
      show (match varintDec (varintEnc c.toNat ++ rest) with
        | some p => some (Char.ofNat p.1, p.2)
        | Option.none => Option.none) = _
      rw [show varintDec (varintEnc c.toNat ++ rest) = some (c.toNat, rest) from
        varintCodec.rt c.toNat rest (by
          show decide (c.toNat < 2 ^ 128) = true
          simp only [decide_eq_true_eq]
          have h := c.val.toNat_lt
          unfold Char.toNat
          omega)]
      show some (Char.ofNat c.toNat, rest) = _
      rw [Char.ofNat_toNat] }

def encList {α : Type} (c : Codec α) : List α → List Nat
  | [] => []
  | x :: xs => c.enc x ++ encList c xs

def decListN {α : Type} (c : Codec α) : Nat → List Nat → Option (List α × List Nat)
  | 0, l => some ([], l)
  | k + 1, l =>
    match c.dec l with
    | some p =>
      match decListN c k p.2 with
      | some q => some (p.1 :: q.1, q.2)
      | Option.none => Option.none
    | Option.none => Option.none

/-- `Vec<T>` / `String`-like: varint length prefix then the elements. -/

def listCodec {α : Type} (c : Codec α) : Codec (List α) :=
  { enc := fun l => varintEnc l.length ++ encList c l
    dec := fun bytes =>
      match varintDec bytes with
      | some p => decListN c p.1 p.2
      | Option.none => Option.none
    val := fun l => decide (l.length < 2 ^ 64) && l.all c.val
    rt := by
      have hs : ∀ (l : List α) (rest : List Nat), l.all c.val = true →
          decListN c l.length (encList c l ++ rest) = some (l, rest) := by
        intro l
        induction l with
        | nil => intro rest _; rfl
        | cons x xs ih =>
          intro rest hv
          rw [List.all_cons, Bool.and_eq_true] at hv
          obtain ⟨hvx, hvxs⟩ := hv
          show (match c.dec ((c.enc x ++ encList c xs) ++ rest) with
            | some p =>
              match decListN c xs.length p.2 with
              | some q => some (p.1 :: q.1, q.2)
              | Option.none => Option.none
            | Option.none => Option.none) = _
          rw [List.append_assoc, c.rt x _ hvx]
          show (match decListN c xs.length (encList c xs ++ rest) with
            | some q => some (x :: q.1, q.2)
            | Option.none => Option.none) = _
          rw [ih rest hvxs]
      intro l rest hv
      simp only [Bool.and_eq_true] at hv
      obtain ⟨hlen, hall⟩ := hv
      show (match varintDec ((varintEnc l.length ++ encList c l) ++ rest) with
        | some p => decListN c p.1 p.2
        | Option.none => Option.none) = _
      rw [List.append_assoc, show varintDec (varintEnc l.length ++ (encList c l ++ rest)) =
        some (l.length, encList c l ++ rest) from varintCodec.rt l.length _ (by
          show decide (l.length < 2 ^ 128) = true
          simp only [decide_eq_true_eq] at hlen ⊢
          omega)]
      show decListN c l.length (encList c l ++ rest) = _
      exact hs l rest hall }

def optionCodec {α : Type} (c : Codec α) : Codec (Option α) :=
  { enc := fun o =>
      match o with
      | Option.none => [0]
      | some a => 1 :: c.enc a
    dec := fun l =>
      match l with
      | 0 :: r => some (Option.none, r)
      | 1 :: r =>
        match c.dec r with
        | some p => some (some p.1, p.2)
        | Option.none => Option.none
      | _ => Option.none
    val := fun o =>
      match o with
      | Option.none => true
      | some a => c.val a
    rt := by
      intro o rest hv
      cases o with
      | none => rfl
      | some a =>
        show (match c.dec (c.enc a ++ rest) with
          | some p => some (some p.1, p.2)
          | Option.none => Option.none) = _
        rw [c.rt a rest hv] }

/-- `String` as a length-prefixed sequence of scalar values. -/

def stringCodec : Codec String :=
  (listCodec charCodec).map (fun l => String.mk l) (fun s => s.data) (fun _ => rfl)

/-- `Ref<T>`: a `usize`. -/

def refCodec : Codec Nat := u64Codec

def nodeStateCodec : Codec NodeState :=
  { enc := fun s =>
      match s with
      | NodeState.off => [0]
      | NodeState.on => [1]
    dec := fun l =>
      match l with
      | 0 :: r => some (NodeState.off, r)
      | 1 :: r => some (NodeState.on, r)
      | _ => Option.none
    val := fun _ => true
    rt := by intro s rest _; cases s <;> rfl }

def edgeStateCodec : Codec EdgeState :=
  { enc := fun s =>
      match s with
      | EdgeState.off => [0]
      | EdgeState.on => [1]
    dec := fun l =>
      match l with
      | 0 :: r => some (EdgeState.off, r)
      | 1 :: r => some (EdgeState.on, r)
      | _ => Option.none
    val := fun _ => true
    rt := by intro s rest _; cases s <;> rfl }

/-- Payload codec for `BlockState::Route` (a pair of parent-node refs). -/

def routePairCodec : Codec (Nat × Nat) := Codec.pair refCodec refCodec

def blockStateCodec : Codec BlockState :=
  { enc := fun s =>
      match s with
      | BlockState.clear => [0]
      | BlockState.relax => [1]
      | BlockState.route a b => 2 :: routePairCodec.enc (a, b)
    dec := fun l =>
      match l with
      | 0 :: r => some (BlockState.clear, r)
      | 1 :: r => some (BlockState.relax, r)
      | 2 :: r =>
        match routePairCodec.dec r with
        | some p => some (BlockState.route p.1.1 p.1.2, p.2)
        | Option.none => Option.none
      | _ => Option.none
    val := fun s =>
      match s with
      | BlockState.route a b => routePairCodec.val (a, b)
      | _ => true
    rt := by
      intro s rest hv
      cases s with
      | clear => rfl
      | relax => rfl
      | route a b =>
        show (match routePairCodec.dec (routePairCodec.enc (a, b) ++ rest) with
          | some p => some (BlockState.route p.1.1 p.1.2, p.2)
          | Option.none => Option.none) = _
        rw [routePairCodec.rt (a, b) rest hv] }

def resetConditionCodec : Codec ResetCondition :=
  { enc := fun s =>
      match s with
      | ResetCondition.none => [0]
      | ResetCondition.timeSecs n => 1 :: u32Codec.enc n
    dec := fun l =>
      match l with
      | 0 :: r => some (ResetCondition.none, r)
      | 1 :: r =>
        match u32Codec.dec r with
        | some p => some (ResetCondition.timeSecs p.1, p.2)
        | Option.none => Option.none
      | _ => Option.none
    val := fun s =>
      match s with
      | ResetCondition.none => true
      | ResetCondition.timeSecs n => u32Codec.val n
    rt := by
      intro s rest hv
      cases s with
      | none => rfl
      | timeSecs n =>
        show (match u32Codec.dec (u32Codec.enc n ++ rest) with
          | some p => some (ResetCondition.timeSecs p.1, p.2)
          | Option.none => Option.none) = _
        rw [u32Codec.rt n rest hv] }

def nodeConditionCodec : Codec NodeCondition :=
  { enc := fun s =>
      match s with
      | NodeCondition.fixed st => 0 :: nodeStateCodec.enc st
      | NodeCondition.direct rc => 1 :: resetConditionCodec.enc rc
      | NodeCondition.router b => 2 :: boolCodec.enc b
    dec := fun l =>
      match l with
      | 0 :: r =>
        match nodeStateCodec.dec r with
        | some p => some (NodeCondition.fixed p.1, p.2)
        | Option.none => Option.none
      | 1 :: r =>
        match resetConditionCodec.dec r with
        | some p => some (NodeCondition.direct p.1, p.2)
        | Option.none => Option.none
      | 2 :: r =>
        match boolCodec.dec r with
        | some p => some (NodeCondition.router p.1, p.2)
        | Option.none => Option.none
      | _ => Option.none
    val := fun s =>
      match s with
      | NodeCondition.fixed st => nodeStateCodec.val st
      | NodeCondition.direct rc => resetConditionCodec.val rc
      | NodeCondition.router b => boolCodec.val b
    rt := by
      intro s rest hv
      cases s with
      | fixed st =>
        show (match nodeStateCodec.dec (nodeStateCodec.enc st ++ rest) with
          | some p => some (NodeCondition.fixed p.1, p.2)
          | Option.none => Option.none) = _
        rw [nodeStateCodec.rt st rest hv]
      | direct rc =>
        show (match resetConditionCodec.dec (resetConditionCodec.enc rc ++ rest) with
          | some p => some (NodeCondition.direct p.1, p.2)
          | Option.none => Option.none) = _
        rw [resetConditionCodec.rt rc rest hv]
      | router b =>
        show (match boolCodec.dec (boolCodec.enc b ++ rest) with
          | some p => some (NodeCondition.router p.1, p.2)
          | Option.none => Option.none) = _
        rw [boolCodec.rt b rest hv] }

def blockRouteCodec : Codec BlockRoute :=
  (Codec.pair refCodec refCodec).map
    (fun p => ⟨p.1, p.2⟩) (fun b => (b.from_, b.to_)) (fun _ => rfl)

def nodeConjunctionCodec : Codec NodeConjunction :=
  (Codec.pair (listCodec refCodec) (listCodec refCodec)).map
    (fun p => ⟨p.1, p.2⟩) (fun c => (c.positive, c.negative)) (fun _ => rfl)

def nodeExpressionCodec : Codec NodeExpression :=
  (listCodec nodeConjunctionCodec).map
    (fun l => ⟨l⟩) (fun e => e.disjunction) (fun _ => rfl)

/-- Payload codec for `EdgeCondition::Router`. -/

def edgeRouterCodec : Codec (Nat × List BlockRoute) :=
  Codec.pair refCodec (listCodec blockRouteCodec)

def edgeConditionCodec : Codec EdgeCondition :=
  { enc := fun s =>
      match s with
      | EdgeCondition.fixed st => 0 :: edgeStateCodec.enc st
      | EdgeCondition.direct ne => 1 :: nodeExpressionCodec.enc ne
      | EdgeCondition.router b rs => 2 :: edgeRouterCodec.enc (b, rs)
    dec := fun l =>
      match l with
      | 0 :: r =>
        match edgeStateCodec.dec r with
        | some p => some (EdgeCondition.fixed p.1, p.2)
        | Option.none => Option.none
      | 1 :: r =>
        match nodeExpressionCodec.dec r with
        | some p => some (EdgeCondition.direct p.1, p.2)
        | Option.none => Option.none
      | 2 :: r =>
        match edgeRouterCodec.dec r with
        | some p => some (EdgeCondition.router p.1.1 p.1.2, p.2)
        | Option.none => Option.none
      | _ => Option.none
    val := fun s =>
      match s with
      | EdgeCondition.fixed st => edgeStateCodec.val st
      | EdgeCondition.direct ne => nodeExpressionCodec.val ne
      | EdgeCondition.router b rs => edgeRouterCodec.val (b, rs)
    rt := by
      intro s rest hv
      cases s with
      | fixed st =>
        show (match edgeStateCodec.dec (edgeStateCodec.enc st ++ rest) with
          | some p => some (EdgeCondition.fixed p.1, p.2)
          | Option.none => Option.none) = _
        rw [edgeStateCodec.rt st rest hv]
      | direct ne =>
        show (match nodeExpressionCodec.dec (nodeExpressionCodec.enc ne ++ rest) with
          | some p => some (EdgeCondition.direct p.1, p.2)
          | Option.none => Option.none) = _
        rw [nodeExpressionCodec.rt ne rest hv]
      | router b rs =>
        show (match edgeRouterCodec.dec (edgeRouterCodec.enc (b, rs) ++ rest) with
          | some p => some (EdgeCondition.router p.1.1 p.1.2, p.2)
          | Option.none => Option.none) = _
        rw [edgeRouterCodec.rt (b, rs) rest hv] }

def blockConditionCodec : Codec BlockCondition :=
  resetConditionCodec.map (fun r => ⟨r⟩) (fun c => c.reset) (fun _ => rfl)

def presetCodec : Codec Preset :=
  (Codec.pair stringCodec (Codec.pair
    (listCodec (Codec.pair refCodec nodeStateCodec))
    (listCodec (Codec.pair refCodec blockStateCodec)))).map
    (fun p => ⟨p.1, p.2.1, p.2.2⟩) (fun pr => (pr.name, pr.nodes, pr.blocks)) (fun _ => rfl)

def elementConditionCodec : Codec ElementCondition :=
  { enc := fun s =>
      match s with
      | ElementCondition.fixed b => 0 :: boolCodec.enc b
      | ElementCondition.node n => 1 :: refCodec.enc n
      | ElementCondition.edge e => 2 :: refCodec.enc e
    dec := fun l =>
      match l with
      | 0 :: r =>
        match boolCodec.dec r with
        | some p => some (ElementCondition.fixed p.1, p.2)
        | Option.none => Option.none
      | 1 :: r =>
        match refCodec.dec r with
        | some p => some (ElementCondition.node p.1, p.2)
        | Option.none => Option.none
      | 2 :: r =>
        match refCodec.dec r with
        | some p => some (ElementCondition.edge p.1, p.2)
        | Option.none => Option.none
      | _ => Option.none
    val := fun s =>
      match s with
      | ElementCondition.fixed b => boolCodec.val b
      | ElementCondition.node n => refCodec.val n
      | ElementCondition.edge e => refCodec.val e
    rt := by
      intro s rest hv
      cases s with
      | fixed b =>
        show (match boolCodec.dec (boolCodec.enc b ++ rest) with
          | some p => some (ElementCondition.fixed p.1, p.2)
          | Option.none => Option.none) = _
        rw [boolCodec.rt b rest hv]
      | node n =>
        show (match refCodec.dec (refCodec.enc n ++ rest) with
          | some p => some (ElementCondition.node p.1, p.2)
          | Option.none => Option.none) = _
        rw [refCodec.rt n rest hv]
      | edge e =>
        show (match refCodec.dec (refCodec.enc e ++ rest) with
          | some p => some (ElementCondition.edge p.1, p.2)
          | Option.none => Option.none) = _
        rw [refCodec.rt e rest hv] }

def elementCodec : Codec Element :=
  (Codec.pair stringCodec elementConditionCodec).map
    (fun p => ⟨p.1, p.2⟩) (fun e => (e.id, e.condition)) (fun _ => rfl)

def nodeCodec : Codec Node :=
  (Codec.pair stringCodec (Codec.pair (optionCodec stringCodec) (optionCodec refCodec))).map
    (fun p => ⟨p.1, p.2.1, p.2.2⟩) (fun n => (n.id, n.scratchpad, n.parent)) (fun _ => rfl)

/-- `bars_config::Edge` is an empty struct: zero bytes. -/

def edgeCodec : Codec Edge :=
  { enc := fun _ => []
    dec := fun l => some (⟨⟩, l)
    val := fun _ => true
    rt := fun _ _ _ => rfl }

def blockCodec : Codec Block :=
  (Codec.pair stringCodec (Codec.pair (listCodec refCodec) (Codec.pair (listCodec refCodec)
    (Codec.pair (listCodec blockRouteCodec) (listCodec stringCodec))))).map
    (fun p => ⟨p.1, p.2.1, p.2.2.1, p.2.2.2.1, p.2.2.2.2⟩)
    (fun b => (b.id, b.nodes, b.edges, b.non_routes, b.stands)) (fun _ => rfl)

def profileCodec : Codec Profile :=
  (Codec.pair stringCodec (Codec.pair stringCodec (Codec.pair (listCodec nodeConditionCodec)
    (Codec.pair (listCodec edgeConditionCodec) (Codec.pair (listCodec blockConditionCodec)
    (listCodec presetCodec)))))).map
    (fun p => ⟨p.1, p.2.1, p.2.2.1, p.2.2.2.1, p.2.2.2.2.1, p.2.2.2.2.2⟩)
    (fun pr => (pr.id, pr.name, pr.nodes, pr.edges, pr.blocks, pr.presets)) (fun _ => rfl)

/-- `f32`: the four little-endian bytes of the bit pattern. -/

def f32Codec : Codec Nat := leCodec 4

def pointCodec : Codec Point :=
  (Codec.pair f32Codec f32Codec).map
    (fun p => ⟨p.1, p.2⟩) (fun q => (q.x, q.y)) (fun _ => rfl)

def geoCodec : Codec Geo :=
  (Codec.pair f32Codec f32Codec).map
    (fun p => ⟨p.1, p.2⟩) (fun g => (g.lat, g.lon)) (fun _ => rfl)

def geoPointCodec : Codec GeoPoint :=
  (Codec.pair geoCodec pointCodec).map
    (fun p => ⟨p.1, p.2⟩) (fun g => (g.geo, g.offset)) (fun _ => rfl)

def colorCodec : Codec Color :=
  (Codec.pair u8Codec (Codec.pair u8Codec (Codec.pair u8Codec u8Codec))).map
    (fun p => ⟨p.1, p.2.1, p.2.2.1, p.2.2.2⟩) (fun c => (c.r, c.g, c.b, c.a)) (fun _ => rfl)

def strokeStyleCodec : Codec StrokeStyle :=
  { enc := fun s =>
      match s with
      | StrokeStyle.none => [0]
      | StrokeStyle.dash n => 1 :: i32Codec.enc n
    dec := fun l =>
      match l with
      | 0 :: r => some (StrokeStyle.none, r)
      | 1 :: r =>
        match i32Codec.dec r with
        | some p => some (StrokeStyle.dash p.1, p.2)
        | Option.none => Option.none
      | _ => Option.none
    val := fun s =>
      match s with
      | StrokeStyle.none => true
      | StrokeStyle.dash n => i32Codec.val n
    rt := by
      intro s rest hv
      cases s with
      | none => rfl
      | dash n =>
        show (match i32Codec.dec (i32Codec.enc n ++ rest) with
          | some p => some (StrokeStyle.dash p.1, p.2)
          | Option.none => Option.none) = _
        rw [i32Codec.rt n rest hv] }

def strokeWidthCodec : Codec StrokeWidth :=
  u8Codec.map (fun n => ⟨n⟩) (fun w => w.val) (fun _ => rfl)

def strokeCapCodec : Codec StrokeCap :=
  i32Codec.map (fun n => ⟨n⟩) (fun c => c.val) (fun _ => rfl)

def strokeJoinCodec : Codec StrokeJoin :=
  i32Codec.map (fun n => ⟨n⟩) (fun j => j.val) (fun _ => rfl)

def fillStyleCodec : Codec FillStyle :=
  { enc := fun s =>
      match s with
      | FillStyle.none => [0]
      | FillStyle.fill => [1]
      | FillStyle.hatch n => 2 :: i32Codec.enc n
    dec := fun l =>
      match l with
      | 0 :: r => some (FillStyle.none, r)
      | 1 :: r => some (FillStyle.fill, r)
      | 2 :: r =>
        match i32Codec.dec r with
        | some p => some (FillStyle.hatch p.1, p.2)
        | Option.none => Option.none
      | _ => Option.none
    val := fun s =>
      match s with
      | FillStyle.hatch n => i32Codec.val n
      | _ => true
    rt := by
      intro s rest hv
      cases s with
      | none => rfl
      | fill => rfl
      | hatch n =>
        show (match i32Codec.dec (i32Codec.enc n ++ rest) with
          | some p => some (FillStyle.hatch p.1, p.2)
          | Option.none => Option.none) = _
        rw [i32Codec.rt n rest hv] }

def styleCodec : Codec Style :=
  (Codec.pair strokeStyleCodec (Codec.pair strokeWidthCodec (Codec.pair strokeCapCodec
    (Codec.pair strokeJoinCodec (Codec.pair colorCodec
    (Codec.pair fillStyleCodec colorCodec)))))).map
    (fun p => ⟨p.1, p.2.1, p.2.2.1, p.2.2.2.1, p.2.2.2.2.1, p.2.2.2.2.2.1, p.2.2.2.2.2.2⟩)
    (fun s => (s.stroke_style, s.stroke_width, s.stroke_cap, s.stroke_join, s.stroke_color,
      s.fill_style, s.fill_color)) (fun _ => rfl)

def pathCodec {α : Type} (c : Codec α) : Codec (Path α) :=
  (Codec.pair (listCodec c) refCodec).map
    (fun p => ⟨p.1, p.2⟩) (fun q => (q.points, q.style)) (fun _ => rfl)

def targetCodec {α : Type} (c : Codec α) : Codec (Target α) :=
  (listCodec (listCodec c)).map (fun l => ⟨l⟩) (fun t => t.polygons) (fun _ => rfl)

def nodeDisplayCodec {α : Type} (c : Codec α) : Codec (NodeDisplay α) :=
  (Codec.pair (listCodec (pathCodec c)) (Codec.pair (listCodec (pathCodec c))
    (Codec.pair (listCodec (pathCodec c)) (targetCodec c)))).map
    (fun p => ⟨p.1, p.2.1, p.2.2.1, p.2.2.2⟩)
    (fun d => (d.off, d.on_, d.selected, d.target)) (fun _ => rfl)

def edgeDisplayCodec {α : Type} (c : Codec α) : Codec (EdgeDisplay α) :=
  (Codec.pair (listCodec (pathCodec c)) (Codec.pair (listCodec (pathCodec c))
    (listCodec (pathCodec c)))).map
    (fun p => ⟨p.1, p.2.1, p.2.2⟩)
    (fun d => (d.off, d.on_, d.pending)) (fun _ => rfl)

def blockDisplayCodec {α : Type} (c : Codec α) : Codec (BlockDisplay α) :=
  (targetCodec c).map (fun t => ⟨t⟩) (fun d => d.target) (fun _ => rfl)

def countdownConditionCodec : Codec CountdownCondition :=
  { enc := fun s =>
      match s with
      | CountdownCondition.node n => 0 :: refCodec.enc n
      | CountdownCondition.block b => 1 :: refCodec.enc b
    dec := fun l =>
      match l with
      | 0 :: r =>
        match refCodec.dec r with
        | some p => some (CountdownCondition.node p.1, p.2)
        | Option.none => Option.none
      | 1 :: r =>
        match refCodec.dec r with
        | some p => some (CountdownCondition.block p.1, p.2)
        | Option.none => Option.none
      | _ => Option.none
    val := fun s =>
      match s with
      | CountdownCondition.node n => refCodec.val n
      | CountdownCondition.block b => refCodec.val b
    rt := by
      intro s rest hv
      cases s with
      | node n =>
        show (match refCodec.dec (refCodec.enc n ++ rest) with
          | some p => some (CountdownCondition.node p.1, p.2)
          | Option.none => Option.none) = _
        rw [refCodec.rt n rest hv]
      | block b =>
        show (match refCodec.dec (refCodec.enc b ++ rest) with
          | some p => some (CountdownCondition.block p.1, p.2)
          | Option.none => Option.none) = _
        rw [refCodec.rt b rest hv] }

/-- Payload codec for `Widget::Countdown`. -/

def widgetPayloadCodec {α : Type} (c : Codec α) : Codec (α × Nat × CountdownCondition) :=
  Codec.pair c (Codec.pair f32Codec countdownConditionCodec)

def widgetCodec {α : Type} (c : Codec α) : Codec (Widget α) :=
  { enc := fun w =>
      match w with
      | Widget.countdown p s cond => 0 :: (widgetPayloadCodec c).enc (p, s, cond)
    dec := fun l =>
      match l with
      | 0 :: r =>
        match (widgetPayloadCodec c).dec r with
        | some p => some (Widget.countdown p.1.1 p.1.2.1 p.1.2.2, p.2)
        | Option.none => Option.none
      | _ => Option.none
    val := fun w =>
      match w with
      | Widget.countdown p s cond => (widgetPayloadCodec c).val (p, s, cond)
    rt := by
      intro w rest hv
      cases w with
      | countdown p s cond =>
        show (match (widgetPayloadCodec c).dec ((widgetPayloadCodec c).enc (p, s, cond)
            ++ rest) with
          | some p => some (Widget.countdown p.1.1 p.1.2.1 p.1.2.2, p.2)
          | Option.none => Option.none) = _
        rw [(widgetPayloadCodec c).rt (p, s, cond) rest hv] }

def boxCodec : Codec Box :=
  (Codec.pair pointCodec pointCodec).map
    (fun p => ⟨p.1, p.2⟩) (fun b => (b.min, b.max)) (fun _ => rfl)

def viewCodec : Codec View :=
  (Codec.pair stringCodec boxCodec).map
    (fun p => ⟨p.1, p.2⟩) (fun v => (v.name, v.bounds)) (fun _ => rfl)

def geoMapCodec : Codec GeoMap :=
  (Codec.pair (listCodec (nodeDisplayCodec geoPointCodec))
    (Codec.pair (listCodec (edgeDisplayCodec geoPointCodec))
    (Codec.pair (listCodec (blockDisplayCodec geoPointCodec))
    (listCodec (widgetCodec geoPointCodec))))).map
    (fun p => ⟨p.1, p.2.1, p.2.2.1, p.2.2.2⟩)
    (fun g => (g.nodes, g.edges, g.blocks, g.widgets)) (fun _ => rfl)

def mapCodec : Codec Map :=
  (Codec.pair colorCodec (Codec.pair (listCodec (pathCodec pointCodec))
    (Codec.pair (listCodec (nodeDisplayCodec pointCodec))
    (Codec.pair (listCodec (edgeDisplayCodec pointCodec))
    (Codec.pair (listCodec (blockDisplayCodec pointCodec))
    (Codec.pair (listCodec (widgetCodec pointCodec)) (listCodec viewCodec))))))).map
    (fun p => ⟨p.1, p.2.1, p.2.2.1, p.2.2.2.1, p.2.2.2.2.1, p.2.2.2.2.2.1, p.2.2.2.2.2.2⟩)
    (fun m => (m.background, m.base, m.nodes, m.edges, m.blocks, m.widgets, m.views))
    (fun _ => rfl)

def aerodromeCodec : Codec Aerodrome :=
  (Codec.pair stringCodec (Codec.pair (listCodec elementCodec)
    (Codec.pair (listCodec nodeCodec) (Codec.pair (listCodec edgeCodec)
    (Codec.pair (listCodec blockCodec) (Codec.pair (listCodec profileCodec)
    (Codec.pair (optionCodec geoMapCodec)
    (Codec.pair (listCodec mapCodec) (listCodec styleCodec))))))))).map
    (fun p => ⟨p.1, p.2.1, p.2.2.1, p.2.2.2.1, p.2.2.2.2.1, p.2.2.2.2.2.1,
      p.2.2.2.2.2.2.1, p.2.2.2.2.2.2.2.1, p.2.2.2.2.2.2.2.2⟩)
    (fun a => (a.icao, a.elements, a.nodes, a.edges, a.blocks, a.profiles,
      a.geo_map, a.maps, a.styles)) (fun _ => rfl)

def configCodec : Codec Config :=
  (Codec.pair (optionCodec stringCodec) (Codec.pair (optionCodec stringCodec)
    (listCodec aerodromeCodec))).map
    (fun p => ⟨p.1, p.2.1, p.2.2⟩)
    (fun c => (c.name, c.version, c.aerodromes)) (fun _ => rfl)

def mapsCodec : Codec Maps :=
  (Codec.pair (listCodec stringCodec) (Codec.pair (listCodec stringCodec)
    (Codec.pair (listCodec stringCodec) (Codec.pair (optionCodec geoMapCodec)
    (Codec.pair (listCodec mapCodec) (listCodec styleCodec)))))).map
    (fun p => ⟨p.1, p.2.1, p.2.2.1, p.2.2.2.1, p.2.2.2.2.1, p.2.2.2.2.2⟩)
    (fun m => (m.nodes, m.edges, m.blocks, m.geo_map, m.maps, m.styles)) (fun _ => rfl)

/-- `Aerodrome::encode`: bare bincode, no frame. -/

def aerodromeEncode (a : Aerodrome) : List Nat := aerodromeCodec.enc a

/-- `Aerodrome::decode`: `decode_from_slice` keeps the value, ignoring
trailing bytes. -/

def aerodromeDecode (l : List Nat) : Option Aerodrome :=
  match aerodromeCodec.dec l with
  | some p => some p.1
  | Option.none => Option.none

/-- `static MAGIC: &[u8] = b"\xffBARS\x13eu"`. -/

def MAGIC : List Nat := [0xff, 0x42, 0x41, 0x52, 0x53, 0x13, 0x65, 0x75]

/-- `u16::to_be_bytes`. -/

def beBytes2 (v : Nat) : List Nat := [v / 256 % 256, v % 256]

/-- `Loadable::save`: magic, big-endian version, compressed bincode body.
Deflate is third-party; the compressor is a parameter. -/

def saveBytes (version : Nat) (compress : List Nat → List Nat)
    (body : List Nat) : List Nat :=
  MAGIC ++ beBytes2 version ++ compress body

/-- `Loadable::load`: check the 8 magic bytes, check the 2 version bytes,
then bincode-decode the decompressed remainder. -/

def loadBytes {α : Type} (version : Nat) (decompress : List Nat → List Nat)
    (dec : List Nat → Option (α × List Nat)) (bytes : List Nat) : Option α :=
  if bytes.take 8 = MAGIC then
    if (bytes.drop 8).take 2 = beBytes2 version then
      match dec (decompress (bytes.drop 10)) with
      | some p => some p.1
      | Option.none => Option.none
    else Option.none
  else Option.none

/-- `<Config as Loadable>::VERSION = 0x0001`. -/

def configSave (compress : List Nat → List Nat) (c : Config) : List Nat :=
  saveBytes 0x0001 compress (configCodec.enc c)

def configLoad (decompress : List Nat → List Nat) (bytes : List Nat) : Option Config :=
  loadBytes 0x0001 decompress configCodec.dec bytes

/-- `<Maps as Loadable>::VERSION = 0x8002`. -/

def mapsSave (compress : List Nat → List Nat) (m : Maps) : List Nat :=
  saveBytes 0x8002 compress (mapsCodec.enc m)

def mapsLoad (decompress : List Nat → List Nat) (bytes : List Nat) : Option Maps :=
  loadBytes 0x8002 decompress mapsCodec.dec bytes

/-- A minimal aerodrome with one element, node, edge, block and profile. -/

def aeroTiny : Aerodrome :=
  { icao := "EGLL"
    elements := [{ id := "e", condition := ElementCondition.fixed true }]
    nodes := [{ id := "n", scratchpad := some "s", parent := Option.none }]
    edges := [{}]
    blocks := [{ id := "b", nodes := [0], edges := [0],
                 non_routes := [{ from_ := 0, to_ := 0 }], stands := ["1"] }]
    profiles := [{ id := "p", name := "P"
                   nodes := [NodeCondition.router true]
                   edges := [EdgeCondition.fixed EdgeState.on]
                   blocks := [{ reset := ResetCondition.timeSecs 30 }]
                   presets := [{ name := "pr", nodes := [(0, NodeState.on)],
                                 blocks := [(0, BlockState.route 0 0)] }] }]
    geo_map := Option.none
    maps := []
    styles := [{ stroke_style := StrokeStyle.dash (-1)
                 stroke_width := { val := 8 }
                 stroke_cap := { val := 0 }
                 stroke_join := { val := 1 }
                 stroke_color := { r := 255, g := 0, b := 255, a := 0 }
                 fill_style := FillStyle.hatch 2
                 fill_color := { r := 1, g := 2, b := 3, a := 4 } }] }

def configTiny : Config :=
  { name := some "cfg", version := Option.none, aerodromes := [aeroTiny] }

def mapsTiny : Maps :=
  { nodes := ["n"], edges := [], blocks := ["b"]
    geo_map := some { nodes := [], edges := [], blocks := [],
                      widgets := [Widget.countdown
                        { geo := { lat := 1, lon := 2 }, offset := { x := 3, y := 4 } }
                        1065353216 (CountdownCondition.block 0)] }
    maps := [{ background := { r := 0, g := 0, b := 0, a := 255 }
               base := [{ points := [{ x := 0, y := 0 }], style := 0 }]
               nodes := [{ off := [], on_ := [], selected := [],
                           target := { polygons := [[{ x := 1, y := 1 }]] } }]
               edges := [{ off := [], on_ := [], pending := [] }]
               blocks := [{ target := { polygons := [] } }]
               widgets := []
               views := [{ name := "v", bounds := { min := { x := 0, y := 0 },
                                                    max := { x := 1, y := 1 } } }] }]
    styles := [] }

/-! ## Theorems

Helper lemmas and the claim theorems, with their witnesses and
counterexamples, in the order of the claims they settle. -/

theorem blockClearsNode_true_iff (s : AeroState) (b n : Nat) :
    blockClearsNode s b n = true ↔ ClearsProp s b n := by
  unfold blockClearsNode ClearsProp
  cases h : (s.blockCell b).state with
  | clear => simp
  | relax => simp
  | route x y =>
    simp only [decide_eq_true_eq]
    constructor
    · rintro ⟨hx, hy⟩
      exact Or.inr ⟨x, y, rfl, hx, hy⟩
    · rintro (h' | ⟨x', y', hxy, hx, hy⟩)
      · exact absurd h' (by simp)
      · obtain ⟨rfl, rfl⟩ : x = x' ∧ y = y' := by
          injection hxy with h1 h2
          exact ⟨h1, h2⟩
        exact ⟨hx, hy⟩

theorem blockClearsNode_false_iff (s : AeroState) (b n : Nat) :
    blockClearsNode s b n = false ↔ BlocksProp s b n := by
  unfold blockClearsNode BlocksProp
  cases h : (s.blockCell b).state with
  | clear => simp
  | relax => simp
  | route x y =>
    simp only [decide_eq_false_iff_not, not_and_or, not_not]
    constructor
    · intro h'
      exact Or.inr ⟨x, y, rfl, h'⟩
    · rintro (h' | ⟨x', y', hxy, hx⟩)
      · exact absurd h' (by simp)
      · obtain ⟨rfl, rfl⟩ : x = x' ∧ y = y' := by
          injection hxy with h1 h2
          exact ⟨h1, h2⟩
        exact hx

/-- C1, counterexample: in `stRelaxed`, node 1's profile condition is
`Router`, its first recorded block is effectively `Relax`, yet
`node_state 1` is `true` — the code keeps a router node lit as soon as
ANY recorded block clears it, not only when NO recorded block relaxes or
routes through it. -/

theorem C1_counterexample :
    isRouterNode stRelaxed 1 = true ∧
    BlocksProp stRelaxed (stRelaxed.nodeBlocksAt 1).1 1 ∧
    node_state stRelaxed 1 = true :=
  ⟨by decide, Or.inl (by decide), by decide⟩

/-- C1 (amended): for a node whose active-profile condition is `Router`,
`node_state` is `true` iff at least one of the two blocks recorded in
`node_blocks` is, in its effective state, `Clear` or a `Route(a,b)` with
`a ≠ n` and `b ≠ n`; dually it is `false` iff both recorded blocks are
`Relax` or a `Route` ending at the node. -/

theorem C1_router_node_state_any (s : AeroState) (n : Nat)
    (h : isRouterNode s n = true) :
    (node_state s n = true ↔
      (ClearsProp s (s.nodeBlocksAt n).1 n ∨ ClearsProp s (s.nodeBlocksAt n).2 n)) ∧
    (node_state s n = false ↔
      (BlocksProp s (s.nodeBlocksAt n).1 n ∧ BlocksProp s (s.nodeBlocksAt n).2 n)) := by
  have hr : ∃ st, s.currentProfile.nodes.getD n (NodeCondition.fixed NodeState.off)
      = NodeCondition.router st := by
    unfold isRouterNode at h
    cases hc : s.currentProfile.nodes.getD n (NodeCondition.fixed NodeState.off) with
    | router st => exact ⟨st, rfl⟩
    | fixed st => rw [hc] at h; simp at h
    | direct r => rw [hc] at h; simp at h
  obtain ⟨st, hst⟩ := hr
  simp only [node_state, hst]
  simp only [List.any_cons, List.any_nil, Bool.or_false]
  constructor
  · rw [Bool.or_eq_true, blockClearsNode_true_iff, blockClearsNode_true_iff]
  · constructor
    · intro h'
      rcases Bool.or_eq_false_iff.mp h' with ⟨h1, h2⟩
      exact ⟨(blockClearsNode_false_iff s _ n).mp h1, (blockClearsNode_false_iff s _ n).mp h2⟩
    · rintro ⟨h1, h2⟩
      exact Bool.or_eq_false_iff.mpr
        ⟨(blockClearsNode_false_iff s _ n).mpr h1, (blockClearsNode_false_iff s _ n).mpr h2⟩

/-- Witness for `C1_router_node_state_any` at `stRelaxed`, node 1. -/

theorem C1_witness :
    (node_state stRelaxed 1 = true ↔
      (ClearsProp stRelaxed (stRelaxed.nodeBlocksAt 1).1 1 ∨
        ClearsProp stRelaxed (stRelaxed.nodeBlocksAt 1).2 1)) ∧
    (node_state stRelaxed 1 = false ↔
      (BlocksProp stRelaxed (stRelaxed.nodeBlocksAt 1).1 1 ∧
        BlocksProp stRelaxed (stRelaxed.nodeBlocksAt 1).2 1)) :=
  C1_router_node_state_any stRelaxed 1 (by decide)

/-! ## C3: the simple route scenario (S4) -/

/-- C3: with router nodes 0 and 1 the parents of block 0 (no children, no
forbidden routes, no other block containing them), `set_route (0, 1)` sets
block 0's pending state to `Route(0, 1)` and leaves every other block's
state unchanged. -/

theorem C3_simple_route :
    ((set_route (mkAerodrome cfgSimpleRoute) 0 (0, 1)).blockCell 0).pending
        = some (BlockState.route 0 1) ∧
    ((set_route (mkAerodrome cfgSimpleRoute) 0 (0, 1)).blockCell 0).current
        = BlockState.clear ∧
    ∀ b, b ≠ 0 →
      (set_route (mkAerodrome cfgSimpleRoute) 0 (0, 1)).blockCell b
        = (mkAerodrome cfgSimpleRoute).blockCell b := by
  refine ⟨by decide, by decide, ?_⟩
  intro b hb
  have hnew : (set_route (mkAerodrome cfgSimpleRoute) 0 (0, 1)).blocks =
      [{ current := BlockState.clear, pending := some (BlockState.route 0 1) },
        { current := BlockState.clear, pending := Option.none }] := by decide
  have hold : (mkAerodrome cfgSimpleRoute).blocks =
      [{ current := BlockState.clear, pending := Option.none },
        { current := BlockState.clear, pending := Option.none }] := by decide
  unfold AeroState.blockCell
  rw [hnew, hold]
  match b, hb with
  | 1, _ => rfl
  | n + 2, _ => rfl

/-- Witness for the hypothesis-bearing conjunct of `C3_simple_route`
at the unrelated block 1. -/

theorem C3_witness :
    ((set_route (mkAerodrome cfgSimpleRoute) 0 (0, 1)).blockCell 0).pending
        = some (BlockState.route 0 1) ∧
    (set_route (mkAerodrome cfgSimpleRoute) 0 (0, 1)).blockCell 1
        = (mkAerodrome cfgSimpleRoute).blockCell 1 :=
  ⟨C3_simple_route.1, C3_simple_route.2.2 1 (by decide)⟩

/-! ## C6: route-solver failures write nothing -/

/-- C6: whenever the route solver fails — chain-reconstruction overflow,
a second chain discovered, or a revisited non-terminal chain element —
`set_route` returns the state unchanged (no block state, no pending
patch, nothing is written). -/

theorem C6_route_failure_frame (s : AeroState) (now : Nat) (o d : Nat)
    (hfail : routeSearch s o d = some RouteOutcome.overflow ∨
      routeSearch s o d = some RouteOutcome.secondChain ∨
      ∃ l rev, routeSearch s o d = some (RouteOutcome.finished (some l) rev) ∧
        l.dropLast.any (fun k => decide (k ∈ rev)) = true) :
    set_route s now (o, d) = s := by
  unfold set_route
  split
  · rfl
  · rcases hfail with h | h | ⟨l, rev, h, hany⟩
    · rw [h]
    · rw [h]
    · rw [h]
      simp only [hany, if_true]

/-- Witness for `C6_route_failure_frame`: in the diamond configuration the
search from node 0 to node 3 discovers a second chain, and `set_route`
leaves the state untouched. -/

theorem C6_witness :
    set_route (mkAerodrome cfgDiamond) 0 (0, 3) = mkAerodrome cfgDiamond :=
  C6_route_failure_frame (mkAerodrome cfgDiamond) 0 0 3 (Or.inr (Or.inl (by decide)))

theorem cntFresh_cons_le (P vis : List Key) (k : Key) :
    cntFresh P (k :: vis) ≤ cntFresh P vis := by
  unfold cntFresh
  apply List.Sublist.length_le
  apply List.monotone_filter_right
  intro a ha
  simp only [decide_eq_true_eq, List.mem_cons, not_or] at ha ⊢
  exact ha.2

theorem cntFresh_cons_lt (P vis : List Key) (k : Key) (hP : k ∈ P) (hk : k ∉ vis) :
    cntFresh P (k :: vis) < cntFresh P vis := by
  induction P with
  | nil => cases hP
  | cons x xs ih =>
    simp only [cntFresh, List.filter_cons]
    rcases List.mem_cons.mp hP with rfl | hx
    · have h1 : decide (k ∉ k :: vis) = false := by simp
      have h2 : decide (k ∉ vis) = true := by simpa using hk
      rw [h1, h2]
      simp only [Bool.false_eq_true, if_false, if_true, List.length_cons]
      exact Nat.lt_succ_of_le (cntFresh_cons_le xs vis k)
    · have hlt : cntFresh xs (k :: vis) < cntFresh xs vis := ih hx
      by_cases hx1 : x ∈ vis
      · have e1 : decide (x ∉ k :: vis) = false := by simp [hx1]
        have e2 : decide (x ∉ vis) = false := by simp [hx1]
        rw [e1, e2]
        simpa [cntFresh] using hlt
      · by_cases hx2 : x = k
        · subst hx2
          have e1 : decide (x ∉ x :: vis) = false := by simp
          have e2 : decide (x ∉ vis) = true := by simpa using hx1
          rw [e1, e2]
          simp only [Bool.false_eq_true, if_false, if_true, List.length_cons]
          exact Nat.lt_succ_of_le (cntFresh_cons_le xs vis x)
        · have e1 : decide (x ∉ k :: vis) = true := by simp [hx1, hx2]
          have e2 : decide (x ∉ vis) = true := by simpa using hx1
          rw [e1, e2]
          simp only [if_true, List.length_cons]
          exact Nat.succ_lt_succ (by simpa [cntFresh] using hlt)

theorem succStep_visited (node : Nat) (direction : Bool) (distance : Nat)
    (transparent : Bool) (q : List QItem) (vis : List Key) (ch : List (Key × Key))
    (rev : List Key) (c : Nat × Bool) (hmem : ((c.1, !c.2) : Key) ∈ vis) :
    succStep node direction distance transparent (q, vis, ch, rev) c
      = (q, vis, ch, if ((c.1, !c.2) : Key) ∈ rev then rev else ((c.1, !c.2) : Key) :: rev) := by
  unfold succStep
  dsimp only
  rw [if_pos hmem]

theorem succStep_fresh_eq (node : Nat) (direction : Bool) (distance : Nat)
    (transparent : Bool) (q : List QItem) (vis : List Key) (ch : List (Key × Key))
    (rev : List Key) (c : Nat × Bool) (hmem : ((c.1, !c.2) : Key) ∉ vis) :
    succStep node direction distance transparent (q, vis, ch, rev) c
      = ((if transparent then
            ((c.1, !c.2, distance + (if transparent then 0 else 1)) : QItem) :: q
          else q ++ [((c.1, !c.2, distance + (if transparent then 0 else 1)) : QItem)]),
          ((c.1, !c.2) : Key) :: vis, (((c.1, !c.2) : Key), (node, direction)) :: ch, rev) := by
  unfold succStep
  dsimp only
  rw [if_neg hmem]

theorem succStep_measure (node : Nat) (direction : Bool) (distance : Nat)
    (transparent : Bool) (P : List Key)
    (q : List QItem) (vis : List Key) (ch : List (Key × Key)) (rev : List Key)
    (c : Nat × Bool) (hcP : ((c.1, !c.2) : Key) ∈ P) :
    (succStep node direction distance transparent (q, vis, ch, rev) c).1.length +
      cntFresh P (succStep node direction distance transparent (q, vis, ch, rev) c).2.1 ≤
    q.length + cntFresh P vis := by
  by_cases hmem : ((c.1, !c.2) : Key) ∈ vis
  · rw [succStep_visited node direction distance transparent q vis ch rev c hmem]
  · rw [succStep_fresh_eq node direction distance transparent q vis ch rev c hmem]
    have hlt := cntFresh_cons_lt P vis (c.1, !c.2) hcP hmem
    cases transparent
    · simp only [Bool.false_eq_true, if_false, List.length_append, List.length_cons,
        List.length_nil]
      omega
    · simp only [if_true, List.length_cons]
      omega

theorem foldl_succStep_measure (node : Nat) (direction : Bool) (distance : Nat)
    (transparent : Bool) (P : List Key) :
    ∀ (L : List (Nat × Bool)) (acc : List QItem × List Key × List (Key × Key) × List Key),
      (∀ c ∈ L, ((c.1, !c.2) : Key) ∈ P) →
      (L.foldl (succStep node direction distance transparent) acc).1.length +
        cntFresh P (L.foldl (succStep node direction distance transparent) acc).2.1 ≤
      acc.1.length + cntFresh P acc.2.1 := by
  intro L
  induction L with
  | nil => intro acc _; exact Nat.le_refl _
  | cons c L ih =>
    intro acc hc
    rw [List.foldl_cons]
    refine Nat.le_trans (ih _ (fun x hx => hc x (List.mem_cons_of_mem c hx))) ?_
    obtain ⟨q, vis, ch, rev⟩ := acc
    exact succStep_measure node direction distance transparent P q vis ch rev c
      (hc c (List.mem_cons_self c L))

theorem routeLoop_succ_cons (s : AeroState) (dest fuel node : Nat) (direction : Bool)
    (distance : Nat) (rest : List QItem) (visited : List Key) (chain : List (Key × Key))
    (list : Option (List Key)) (revisited : List Key) :
    routeLoop s dest (fuel + 1) ((node, direction, distance) :: rest) visited chain list revisited
      = if s.currentProfile.nodes.getD node (NodeCondition.fixed NodeState.off)
            = NodeCondition.fixed NodeState.on then
          routeLoop s dest fuel rest visited chain list revisited
        else if node = dest then
          match list with
          | some _ => some RouteOutcome.secondChain
          | Option.none =>
            match chainWalk chain 1000 (some (node, direction)) with
            | Option.none => some RouteOutcome.overflow
            | some l =>
              if distance > 1 then routeLoop s dest fuel rest visited chain (some l) revisited
              else some (RouteOutcome.finished (some l) revisited)
        else
          routeLoop s dest fuel
            (expandSuccessors s node direction distance
              (decide (s.currentProfile.nodes.getD node (NodeCondition.fixed NodeState.off)
                = NodeCondition.fixed NodeState.off)) (rest, visited, chain, revisited)).1
            (expandSuccessors s node direction distance
              (decide (s.currentProfile.nodes.getD node (NodeCondition.fixed NodeState.off)
                = NodeCondition.fixed NodeState.off)) (rest, visited, chain, revisited)).2.1
            (expandSuccessors s node direction distance
              (decide (s.currentProfile.nodes.getD node (NodeCondition.fixed NodeState.off)
                = NodeCondition.fixed NodeState.off)) (rest, visited, chain, revisited)).2.2.1
            list
            (expandSuccessors s node direction distance
              (decide (s.currentProfile.nodes.getD node (NodeCondition.fixed NodeState.off)
                = NodeCondition.fixed NodeState.off)) (rest, visited, chain, revisited)).2.2.2
      := rfl

theorem routeLoop_ne_none (s : AeroState) (dest : Nat) (P : List Key)
    (hP : ∀ (node : Nat) (dir : Bool), ∀ c ∈ s.connsAt node dir, ((c.1, !c.2) : Key) ∈ P) :
    ∀ (fuel : Nat) (queue : List QItem) (visited : List Key) (chain : List (Key × Key))
      (list : Option (List Key)) (revisited : List Key),
      queue.length + cntFresh P visited < fuel →
      routeLoop s dest fuel queue visited chain list revisited ≠ Option.none := by
  intro fuel
  induction fuel with
  | zero => intro q v c l r h; omega
  | succ fuel ih =>
    intro queue visited chain list revisited h
    cases queue with
    | nil => simp [routeLoop]
    | cons item rest =>
      obtain ⟨node, direction, distance⟩ := item
      rw [routeLoop_succ_cons]
      have hrest : rest.length + cntFresh P visited < fuel := by
        simp only [List.length_cons] at h
        omega
      by_cases h1 : s.currentProfile.nodes.getD node (NodeCondition.fixed NodeState.off)
          = NodeCondition.fixed NodeState.on
      · rw [if_pos h1]
        exact ih rest visited chain list revisited hrest
      · rw [if_neg h1]
        by_cases h2 : node = dest
        · rw [if_pos h2]
          cases list with
          | some l0 =>
            show some RouteOutcome.secondChain ≠ Option.none
            simp
          | none =>
            cases hw : chainWalk chain 1000 (some (node, direction)) with
            | none =>
              show some RouteOutcome.overflow ≠ Option.none
              simp
            | some l =>
              show (if distance > 1 then
                  routeLoop s dest fuel rest visited chain (some l) revisited
                else some (RouteOutcome.finished (some l) revisited)) ≠ Option.none
              by_cases h3 : distance > 1
              · rw [if_pos h3]
                exact ih rest visited chain (some l) revisited hrest
              · rw [if_neg h3]
                simp
        · rw [if_neg h2]
          have hm' : (expandSuccessors s node direction distance
              (decide (s.currentProfile.nodes.getD node (NodeCondition.fixed NodeState.off)
                = NodeCondition.fixed NodeState.off)) (rest, visited, chain, revisited)).1.length +
              cntFresh P (expandSuccessors s node direction distance
                (decide (s.currentProfile.nodes.getD node (NodeCondition.fixed NodeState.off)
                  = NodeCondition.fixed NodeState.off)) (rest, visited, chain, revisited)).2.1 ≤
              rest.length + cntFresh P visited :=
            foldl_succStep_measure node direction distance
              (decide (s.currentProfile.nodes.getD node (NodeCondition.fixed NodeState.off)
                = NodeCondition.fixed NodeState.off)) P
              (s.connsAt node direction) (rest, visited, chain, revisited)
              (fun c hc => hP node direction c hc)
          exact ih _ _ _ list _ (by omega)

theorem chainWalk_none_eq (chain : List (Key × Key)) (fuel : Nat) :
    chainWalk chain fuel Option.none = some [] := by
  cases fuel <;> rfl

theorem chainWalk_zero_some (chain : List (Key × Key)) (k : Key) :
    chainWalk chain 0 (some k) = Option.none := rfl

theorem chainWalk_succ_some (chain : List (Key × Key)) (fuel : Nat) (k : Key) :
    chainWalk chain (fuel + 1) (some k)
      = (chainWalk chain fuel (keyLookup chain k)).map (fun l => k :: l) := rfl

theorem chainWalk_length_le (chain : List (Key × Key)) :
    ∀ (fuel : Nat) (prev : Option Key) (l : List Key),
      chainWalk chain fuel prev = some l → l.length ≤ fuel := by
  intro fuel
  induction fuel with
  | zero =>
    intro prev l h
    cases prev with
    | none =>
      rw [chainWalk_none_eq] at h
      cases h
      simp
    | some k => rw [chainWalk_zero_some] at h; cases h
  | succ fuel ih =>
    intro prev l h
    cases prev with
    | none =>
      rw [chainWalk_none_eq] at h
      cases h
      simp
    | some k =>
      rw [chainWalk_succ_some] at h
      rcases Option.map_eq_some'.mp h with ⟨l', hl', rfl⟩
      simpa using Nat.succ_le_succ (ih _ l' hl')

theorem foldl_append_length (l : List (List (Nat × Bool) × List (Nat × Bool))) :
    ∀ c : Nat, l.foldl (fun a p => a + p.1.length + p.2.length) c
      = c + l.foldl (fun a p => a + p.1.length + p.2.length) 0 := by
  induction l with
  | nil => intro c; simp
  | cons p l ih =>
    intro c
    rw [List.foldl_cons, List.foldl_cons, ih, ih (0 + p.1.length + p.2.length)]
    omega

theorem flatConns_length (l : List (List (Nat × Bool) × List (Nat × Bool))) :
    ∀ acc : List (Nat × Bool),
      (l.foldl (fun acc p => acc ++ p.1 ++ p.2) acc).length
        = acc.length + l.foldl (fun a p => a + p.1.length + p.2.length) 0 := by
  induction l with
  | nil => intro acc; simp
  | cons p l ih =>
    intro acc
    simp only [List.foldl_cons]
    rw [ih, foldl_append_length l (0 + p.1.length + p.2.length)]
    simp [List.length_append]
    omega

theorem mem_foldl_append_acc (l : List (List (Nat × Bool) × List (Nat × Bool))) :
    ∀ (acc : List (Nat × Bool)) (c : Nat × Bool), c ∈ acc →
      c ∈ l.foldl (fun acc p => acc ++ p.1 ++ p.2) acc := by
  induction l with
  | nil => intro acc c hc; exact hc
  | cons p l ih =>
    intro acc c hc
    rw [List.foldl_cons]
    exact ih _ c (by simp [hc])

theorem mem_foldl_append (l : List (List (Nat × Bool) × List (Nat × Bool))) :
    ∀ (acc : List (Nat × Bool)) (p : List (Nat × Bool) × List (Nat × Bool)) (c : Nat × Bool),
      p ∈ l → (c ∈ p.1 ∨ c ∈ p.2) →
      c ∈ l.foldl (fun acc p => acc ++ p.1 ++ p.2) acc := by
  induction l with
  | nil => intro acc p c hp; cases hp
  | cons x l ih =>
    intro acc p c hp hc
    rw [List.foldl_cons]
    rcases List.mem_cons.mp hp with rfl | hp'
    · exact mem_foldl_append_acc l _ c (by rcases hc with h | h <;> simp [h])
    · exact ih _ p c hp' hc

theorem getD_mem_of_lt {α : Type} (l : List α) (n : Nat) (d : α) (h : n < l.length) :
    l.getD n d ∈ l := by
  induction l generalizing n with
  | nil => simp at h
  | cons x xs ih =>
    cases n with
    | zero => simp [List.getD]
    | succ n =>
      simp only [List.getD_cons_succ]
      exact List.mem_cons_of_mem x (ih n (by simpa using h))

theorem getD_of_le {α : Type} (l : List α) (n : Nat) (d : α) (h : l.length ≤ n) :
    l.getD n d = d := by
  induction l generalizing n with
  | nil => cases n <;> rfl
  | cons x xs ih =>
    cases n with
    | zero => simp at h
    | succ n => simpa [List.getD_cons_succ] using ih n (by simpa using h)

theorem connsAt_mem_possibleKeys (s : AeroState) (node : Nat) (dir : Bool)
    (c : Nat × Bool) (hc : c ∈ s.connsAt node dir) :
    ((c.1, !c.2) : Key) ∈ possibleKeys s := by
  unfold possibleKeys
  apply List.mem_map_of_mem
  unfold AeroState.connsAt at hc
  by_cases h : node < s.node_conns.length
  · refine mem_foldl_append s.node_conns [] (s.node_conns.getD node ([], [])) c
      (getD_mem_of_lt _ _ _ h) ?_
    cases dir with
    | false => exact Or.inl (by simpa using hc)
    | true => exact Or.inr (by simpa using hc)
  · rw [getD_of_le _ _ _ (Nat.le_of_not_lt h)] at hc
    cases dir <;> simp at hc

theorem routeSearch_ne_none (s : AeroState) (o d : Nat) :
    routeSearch s o d ≠ Option.none := by
  apply routeLoop_ne_none s d (possibleKeys s)
    (fun node dir c hc => connsAt_mem_possibleKeys s node dir c hc)
  have h1 : cntFresh (possibleKeys s) [(o, false), (o, true)] ≤ (possibleKeys s).length :=
    List.length_filter_le _ _
  have h2 : (possibleKeys s).length
      = s.node_conns.foldl (fun a p => a + p.1.length + p.2.length) 0 := by
    unfold possibleKeys
    rw [List.length_map]
    simpa using flatConns_length s.node_conns []
  unfold routeFuel
  simp only [List.length_cons, List.length_nil]
  omega

theorem foldl_succStep_fresh (node : Nat) (direction : Bool) (distance : Nat)
    (transparent : Bool) :
    ∀ (L : List (Nat × Bool)) (acc : List QItem × List Key × List (Key × Key) × List Key),
      acc.2.1 ⊆ (L.foldl (succStep node direction distance transparent) acc).2.1 ∧
      ∀ i ∈ (L.foldl (succStep node direction distance transparent) acc).1,
        i ∈ acc.1 ∨ ((i.1, i.2.1) ∉ acc.2.1 ∧
          (i.1, i.2.1) ∈ (L.foldl (succStep node direction distance transparent) acc).2.1) := by
  intro L
  induction L with
  | nil => intro acc; exact ⟨fun x hx => hx, fun i hi => Or.inl hi⟩
  | cons c L ih =>
    intro acc
    rw [List.foldl_cons]
    obtain ⟨q, vis, ch, rev⟩ := acc
    obtain ⟨ihsub, ihmem⟩ := ih (succStep node direction distance transparent (q, vis, ch, rev) c)
    by_cases hmem : ((c.1, !c.2) : Key) ∈ vis
    · rw [succStep_visited node direction distance transparent q vis ch rev c hmem] at ihsub ihmem ⊢
      exact ⟨ihsub, ihmem⟩
    · rw [succStep_fresh_eq node direction distance transparent q vis ch rev c hmem]
        at ihsub ihmem ⊢
      constructor
      · intro x hx
        exact ihsub (List.mem_cons_of_mem _ hx)
      · intro i hi
        rcases ihmem i hi with hin | ⟨hnot, hfin⟩
        · have hcase : i ∈ q ∨ i = ((c.1, !c.2, distance + (if transparent then 0 else 1)) : QItem) := by
            cases transparent <;> simp at hin <;> tauto
          rcases hcase with hiq | rfl
          · exact Or.inl hiq
          · exact Or.inr ⟨hmem, ihsub (List.mem_cons_self _ _)⟩
        · refine Or.inr ⟨fun hv => hnot (List.mem_cons_of_mem _ hv), hfin⟩

/-- C7: for every aerodrome state and endpoints, the route search
terminates within the fuel `set_route` provides (the search never
exhausts it), the chain-reconstruction walk returns at most 1000 items
before its guard aborts it, and the successor expansion enqueues an item
only when its `(node, side)` key was not yet visited, marking it visited
at once — so each key is enqueued, hence visited, at most once. -/

theorem C7_route_solver_termination :
    (∀ (s : AeroState) (o d : Nat), routeSearch s o d ≠ Option.none) ∧
    (∀ (chain : List (Key × Key)) (start : Option Key) (l : List Key),
      chainWalk chain 1000 start = some l → l.length ≤ 1000) ∧
    (∀ (s : AeroState) (node : Nat) (direction : Bool) (distance : Nat)
        (transparent : Bool) (q : List QItem) (vis : List Key)
        (ch : List (Key × Key)) (rev : List Key) (i : QItem),
      i ∈ (expandSuccessors s node direction distance transparent (q, vis, ch, rev)).1 →
      i ∈ q ∨ ((i.1, i.2.1) ∉ vis ∧
        (i.1, i.2.1) ∈ (expandSuccessors s node direction distance transparent (q, vis, ch, rev)).2.1)) :=
  ⟨routeSearch_ne_none,
    fun chain start l h => chainWalk_length_le chain 1000 start l h,
    fun s node direction distance transparent q vis ch rev i hi =>
      (foldl_succStep_fresh node direction distance transparent
        (s.connsAt node direction) (q, vis, ch, rev)).2 i hi⟩

/-! ## C2: the server-patch reducer on node entries -/

theorem modifyAt_length {α : Type} (l : List α) (i : Nat) (f : α → α) :
    (modifyAt l i f).length = l.length := by
  induction l generalizing i with
  | nil => rfl
  | cons x xs ih =>
    cases i with
    | zero => rfl
    | succ n => simp [modifyAt, ih]

theorem modifyAt_getD_self {α : Type} (l : List α) (i : Nat) (f : α → α) (d : α)
    (h : i < l.length) :
    (modifyAt l i f).getD i d = f (l.getD i d) := by
  induction l generalizing i with
  | nil => simp at h
  | cons x xs ih =>
    cases i with
    | zero => rfl
    | succ n => simpa [modifyAt] using ih n (by simpa using h)

theorem modifyAt_getD_ne {α : Type} (l : List α) (i j : Nat) (f : α → α) (d : α)
    (h : j ≠ i) :
    (modifyAt l i f).getD j d = l.getD j d := by
  induction l generalizing i j with
  | nil => rfl
  | cons x xs ih =>
    cases i with
    | zero =>
      cases j with
      | zero => exact absurd rfl h
      | succ m => rfl
    | succ n =>
      cases j with
      | zero => rfl
      | succ m => simpa [modifyAt] using ih n m (fun hc => h (by rw [hc]))

theorem patchNodeStep_node_ids (s : AeroState) (p : String × Bool) :
    (patchNodeStep s p).node_ids = s.node_ids := by
  unfold patchNodeStep
  split
  · split <;> rfl
  · rfl

theorem patchNodeStep_nodes_length (s : AeroState) (p : String × Bool) :
    (patchNodeStep s p).nodes.length = s.nodes.length := by
  unfold patchNodeStep
  split
  · split <;> exact modifyAt_length _ _ _
  · rfl

theorem patchNodeStep_timers_sub (s : AeroState) (p : String × Bool) :
    ∀ x, x ∈ (patchNodeStep s p).node_timers → x ∈ s.node_timers := by
  unfold patchNodeStep
  split
  · split
    · exact fun x hx => hx
    · exact fun x hx => List.mem_of_mem_filter hx
  · exact fun x hx => hx

theorem patchNodeStep_nodeCell_ne (s : AeroState) (p : String × Bool) (i : Nat)
    (hne : s.node_ids.get p.1 ≠ some i) :
    (patchNodeStep s p).nodeCell i = s.nodeCell i := by
  cases hg : s.node_ids.get p.1 with
  | none =>
    unfold patchNodeStep
    rw [hg]
  | some j =>
    have hji : i ≠ j := fun hc => hne (by rw [← hc] at hg; exact hg)
    simp only [patchNodeStep, hg]
    split <;> (unfold AeroState.nodeCell; exact modifyAt_getD_ne _ _ _ _ _ hji)

theorem patchNodeStep_spec (s : AeroState) (id : String) (v : Bool) (i : Nat)
    (hres : s.node_ids.get id = some i) (hlen : i < s.nodes.length) :
    ((patchNodeStep s (id, v)).nodeCell i).current = v ∧
    ((patchNodeStep s (id, v)).nodeCell i).pending
      = (if (s.nodeCell i).pending = some v then Option.none else (s.nodeCell i).pending) ∧
    ((s.nodeCell i).pending ≠ some v →
      ∀ t, (i, t) ∉ (patchNodeStep s (id, v)).node_timers) := by
  simp only [patchNodeStep, hres]
  by_cases hp : (s.nodeCell i).pending = some v
  · rw [if_pos (by exact hp)]
    refine ⟨?_, ?_, ?_⟩
    · show ((modifyAt s.nodes i _).getD i _).current = v
      rw [modifyAt_getD_self _ _ _ _ hlen]
    · show ((modifyAt s.nodes i _).getD i _).pending = _
      rw [modifyAt_getD_self _ _ _ _ hlen, if_pos hp]
    · intro hne
      exact absurd hp hne
  · rw [if_neg (by exact hp)]
    refine ⟨?_, ?_, ?_⟩
    · show ((modifyAt s.nodes i _).getD i _).current = v
      rw [modifyAt_getD_self _ _ _ _ hlen]
    · show ((modifyAt s.nodes i _).getD i _).pending = _
      rw [modifyAt_getD_self _ _ _ _ hlen, if_neg hp]
      rfl
    · intro _ t hmem
      have := (List.mem_filter.mp hmem).2
      simp at this

theorem foldl_patchNodeStep_preserve (entries : List (String × Bool)) :
    ∀ (s : AeroState) (i : Nat),
      (∀ p ∈ entries, s.node_ids.get p.1 ≠ some i) →
      ((entries.foldl patchNodeStep s).nodeCell i = s.nodeCell i ∧
        ∀ x, x ∈ (entries.foldl patchNodeStep s).node_timers → x ∈ s.node_timers) := by
  induction entries with
  | nil => intro s i _; exact ⟨rfl, fun x hx => hx⟩
  | cons p entries ih =>
    intro s i h
    rw [List.foldl_cons]
    have h1 := patchNodeStep_nodeCell_ne s p i (h p (List.mem_cons_self p entries))
    have hids := patchNodeStep_node_ids s p
    obtain ⟨ih1, ih2⟩ := ih (patchNodeStep s p) i
      (fun q hq => by rw [hids]; exact h q (List.mem_cons_of_mem p hq))
    exact ⟨ih1.trans h1, fun x hx => patchNodeStep_timers_sub s p x (ih2 x hx)⟩

theorem foldl_patchNodeStep_spec (id : String) (v : Bool) (i : Nat) :
    ∀ (entries : List (String × Bool)) (s : AeroState),
      (id, v) ∈ entries →
      (entries.map Prod.fst).Nodup →
      (∀ p ∈ entries, p.1 ≠ id → s.node_ids.get p.1 ≠ some i) →
      s.node_ids.get id = some i →
      i < s.nodes.length →
      (((entries.foldl patchNodeStep s).nodeCell i).current = v ∧
        ((entries.foldl patchNodeStep s).nodeCell i).pending
          = (if (s.nodeCell i).pending = some v then Option.none else (s.nodeCell i).pending) ∧
        ((s.nodeCell i).pending ≠ some v →
          ∀ t, (i, t) ∉ (entries.foldl patchNodeStep s).node_timers)) := by
  intro entries
  induction entries with
  | nil => intro s hmem; cases hmem
  | cons p entries ih =>
    intro s hmem hnd hother hres hlen
    rw [List.foldl_cons]
    have hnd' := hnd
    rw [List.map_cons] at hnd'
    obtain ⟨hhead, htail⟩ := List.nodup_cons.mp hnd'
    rcases List.mem_cons.mp hmem with rfl | hmem'
    · have hid_not : id ∉ entries.map Prod.fst := hhead
      have hspec := patchNodeStep_spec s id v i hres hlen
      have hne : ∀ q ∈ entries, (patchNodeStep s (id, v)).node_ids.get q.1 ≠ some i := by
        intro q hq
        rw [patchNodeStep_node_ids]
        refine hother q (List.mem_cons_of_mem _ hq) ?_
        intro hc
        exact hid_not (List.mem_map.mpr ⟨q, hq, hc⟩)
      obtain ⟨hp1, hp2⟩ := foldl_patchNodeStep_preserve entries (patchNodeStep s (id, v)) i hne
      refine ⟨?_, ?_, ?_⟩
      · rw [hp1]; exact hspec.1
      · rw [hp1]; exact hspec.2.1
      · intro hnep t hmem''
        exact hspec.2.2 hnep t (hp2 _ hmem'')
    · have hp1 : p.1 ≠ id := by
        intro hc
        exact hhead (by rw [hc]; exact List.mem_map.mpr ⟨(id, v), hmem', rfl⟩)
      have hcell := patchNodeStep_nodeCell_ne s p i (hother p (List.mem_cons_self p entries) hp1)
      have hids := patchNodeStep_node_ids s p
      have hres' : (patchNodeStep s p).node_ids.get id = some i := by rw [hids]; exact hres
      have hlen' : i < (patchNodeStep s p).nodes.length := by
        rw [patchNodeStep_nodes_length]; exact hlen
      have hother' : ∀ q ∈ entries, q.1 ≠ id → (patchNodeStep s p).node_ids.get q.1 ≠ some i := by
        intro q hq hq1
        rw [hids]
        exact hother q (List.mem_cons_of_mem p hq) hq1
      obtain ⟨hc1, hc2, hc3⟩ := ih (patchNodeStep s p) hmem' htail hother' hres' hlen'
      rw [hcell] at hc2 hc3
      exact ⟨hc1, hc2, fun hnep t hmem'' => hc3 hnep t hmem''⟩

theorem patchBlockStep_frame (s : AeroState) (p : String × IpcBlockState) :
    (patchBlockStep s p).nodes = s.nodes ∧ (patchBlockStep s p).node_timers = s.node_timers := by
  unfold patchBlockStep
  split
  · split
    · split <;> exact ⟨rfl, rfl⟩
    · exact ⟨rfl, rfl⟩
  · exact ⟨rfl, rfl⟩

theorem foldl_patchBlockStep_frame (entries : List (String × IpcBlockState)) :
    ∀ s : AeroState,
      (entries.foldl patchBlockStep s).nodes = s.nodes ∧
      (entries.foldl patchBlockStep s).node_timers = s.node_timers := by
  induction entries with
  | nil => intro s; exact ⟨rfl, rfl⟩
  | cons p entries ih =>
    intro s
    rw [List.foldl_cons]
    obtain ⟨h1, h2⟩ := ih (patchBlockStep s p)
    obtain ⟨g1, g2⟩ := patchBlockStep_frame s p
    exact ⟨h1.trans g1, h2.trans g2⟩

theorem patchProfileStep_frame (s : AeroState) (pr : Option String) :
    (patchProfileStep s pr).nodes = s.nodes ∧
    (patchProfileStep s pr).node_ids = s.node_ids ∧
    ∀ x, x ∈ (patchProfileStep s pr).node_timers → x ∈ s.node_timers := by
  unfold patchProfileStep
  split
  · split
    · exact ⟨rfl, rfl, fun x hx => by simp at hx⟩
    · exact ⟨rfl, rfl, fun x hx => hx⟩
  · exact ⟨rfl, rfl, fun x hx => hx⟩

/-- C2: for an entry `(id, v)` of a server patch's node map that resolves
to node index `i`, `apply_patch` sets `nodes[i].current` to `v`; if the
pending value was `Some v` the pending is cleared in the same step (so the
effective state equals `v` and the pending side is empty); otherwise the
pending is left in place and every reset timer armed for node `i` is
cancelled.  The map hypotheses say that `patch.nodes` has distinct keys
(it is a `HashMap`) and that no other key resolves to the same index
(`node_ids` maps distinct ids to distinct indices by construction). -/

theorem C2_apply_patch_node_entry (s : AeroState) (patch : Patch) (id : String)
    (v : Bool) (i : Nat)
    (hmem : (id, v) ∈ patch.nodes)
    (hnd : (patch.nodes.map Prod.fst).Nodup)
    (hother : ∀ p ∈ patch.nodes, p.1 ≠ id → s.node_ids.get p.1 ≠ some i)
    (hres : s.node_ids.get id = some i)
    (hlen : i < s.nodes.length) :
    ((apply_patch s patch).nodeCell i).current = v ∧
    ((apply_patch s patch).nodeCell i).pending
      = (if (s.nodeCell i).pending = some v then Option.none else (s.nodeCell i).pending) ∧
    ((s.nodeCell i).pending = some v → ((apply_patch s patch).nodeCell i).state = v) ∧
    ((s.nodeCell i).pending ≠ some v →
      ∀ t, (i, t) ∉ (apply_patch s patch).node_timers) := by
  obtain ⟨hpn, hpi, hpt⟩ := patchProfileStep_frame s patch.profile
  have hpcell : ∀ j, (patchProfileStep s patch.profile).nodeCell j = s.nodeCell j := by
    intro j
    unfold AeroState.nodeCell
    rw [hpn]
  have hfold := foldl_patchNodeStep_spec id v i patch.nodes (patchProfileStep s patch.profile)
    hmem hnd (fun p hp hne => by rw [hpi]; exact hother p hp hne)
    (by rw [hpi]; exact hres) (by rw [hpn]; exact hlen)
  obtain ⟨hbn, hbt⟩ := foldl_patchBlockStep_frame patch.blocks
    (patch.nodes.foldl patchNodeStep (patchProfileStep s patch.profile))
  have hbcell : ∀ j, (apply_patch s patch).nodeCell j
      = ((patch.nodes.foldl patchNodeStep (patchProfileStep s patch.profile)).nodeCell j) := by
    intro j
    unfold apply_patch AeroState.nodeCell
    rw [hbn]
  rw [hpcell] at hfold
  refine ⟨?_, ?_, ?_, ?_⟩
  · rw [hbcell]; exact hfold.1
  · rw [hbcell]; exact hfold.2.1
  · intro hp
    rw [hbcell]
    have h2 := hfold.2.1
    rw [if_pos hp] at h2
    unfold StateCell.state
    rw [h2]
    exact hfold.1
  · intro hne t hmem'
    have : (i, t) ∈ (patch.nodes.foldl patchNodeStep
        (patchProfileStep s patch.profile)).node_timers := by
      have := hmem'
      unfold apply_patch at this
      rw [hbt] at this
      exact this
    exact hfold.2.2 hne t this

/-- Witness for `C2_apply_patch_node_entry` on a concrete aerodrome and a
one-entry patch. -/

theorem C2_witness :
    (((apply_patch (mkAerodrome cfgTwoBlocks)
        { profile := Option.none, nodes := [("N1", false)], blocks := [] }).nodeCell 1).current
      = false) ∧
    (((apply_patch (mkAerodrome cfgTwoBlocks)
        { profile := Option.none, nodes := [("N1", false)], blocks := [] }).nodeCell 1).pending
      = (if ((mkAerodrome cfgTwoBlocks).nodeCell 1).pending = some false then Option.none
          else ((mkAerodrome cfgTwoBlocks).nodeCell 1).pending)) :=
  (fun h => ⟨h.1, h.2.1⟩)
    (C2_apply_patch_node_entry (mkAerodrome cfgTwoBlocks)
      { profile := Option.none, nodes := [("N1", false)], blocks := [] } "N1" false 1
      (by decide) (by decide) (by decide) (by decide) (by decide))

/-! ## C4: preset application -/

theorem SMap.get_insert {β : Type} (m : SMap β) (k q : String) (v : β) :
    (m.insert k v).get q = if q = k then some v else m.get q := by
  induction m with
  | nil =>
    by_cases h : q = k
    · simp only [SMap.insert, SMap.get]
      rw [if_pos h.symm, if_pos h]
    · simp only [SMap.insert, SMap.get]
      rw [if_neg (fun hc => h hc.symm), if_neg h]
  | cons p rest ih =>
    simp only [SMap.insert]
    by_cases h1 : p.1 = k
    · rw [if_pos h1]
      simp only [SMap.get]
      by_cases h2 : q = k
      · rw [if_pos h2.symm, if_pos h2]
      · have h3 : ¬ p.1 = q := fun hc => h2 (by rw [← hc, h1])
        rw [if_neg (fun hc => h2 hc.symm), if_neg h2, if_neg h3]
    · rw [if_neg h1]
      simp only [SMap.get, ih]
      by_cases h2 : q = k
      · have h3 : ¬ p.1 = q := fun hc => h1 (by rw [hc, h2])
        rw [if_neg h3, if_pos h2, if_pos h2]
      · rw [if_neg h2, if_neg h2]

theorem presetNodeStep_map (s0 : AeroState) (acc : AeroState × SMap Bool)
    (p : Nat × NodeState) :
    (presetNodeStep s0 acc p).2
      = if p.1 < s0.nodes.length then
          acc.2.insert (s0.config.nodes.getD p.1 Node.empty).id (decide (p.2 = NodeState.on))
        else acc.2 := by
  unfold presetNodeStep
  split <;> rfl

theorem presetNodeStep_nodes (s0 : AeroState) (acc : AeroState × SMap Bool)
    (p : Nat × NodeState) :
    (presetNodeStep s0 acc p).1.nodes
      = if p.1 < s0.nodes.length then
          modifyAt acc.1.nodes p.1
            (fun c => { c with pending := some (decide (p.2 = NodeState.on)) })
        else acc.1.nodes := by
  unfold presetNodeStep
  split <;> rfl

theorem presetNodeStep_blocks (s0 : AeroState) (acc : AeroState × SMap Bool)
    (p : Nat × NodeState) :
    (presetNodeStep s0 acc p).1.blocks = acc.1.blocks := by
  unfold presetNodeStep
  split <;> rfl

theorem presetBlockStep_map (s0 : AeroState) (acc : AeroState × SMap IpcBlockState)
    (p : Nat × BlockState) :
    (presetBlockStep s0 acc p).2
      = if p.1 < s0.blocks.length then
          acc.2.insert (s0.config.blocks.getD p.1 Block.empty).id (s0.bs_conf_to_ipc p.2)
        else acc.2 := by
  unfold presetBlockStep
  split <;> rfl

theorem presetBlockStep_blocks (s0 : AeroState) (acc : AeroState × SMap IpcBlockState)
    (p : Nat × BlockState) :
    (presetBlockStep s0 acc p).1.blocks
      = if p.1 < s0.blocks.length then
          modifyAt acc.1.blocks p.1 (fun c => { c with pending := some p.2 })
        else acc.1.blocks := by
  unfold presetBlockStep
  split <;> rfl

theorem presetBlockStep_nodes (s0 : AeroState) (acc : AeroState × SMap IpcBlockState)
    (p : Nat × BlockState) :
    (presetBlockStep s0 acc p).1.nodes = acc.1.nodes := by
  unfold presetBlockStep
  split <;> rfl

theorem fold_presetNode_map_frame (s0 : AeroState) :
    ∀ (entries : List (Nat × NodeState)) (acc : AeroState × SMap Bool) (id : String),
      (∀ p ∈ entries, p.1 < s0.nodes.length → (s0.config.nodes.getD p.1 Node.empty).id ≠ id) →
      (entries.foldl (presetNodeStep s0) acc).2.get id = acc.2.get id := by
  intro entries
  induction entries with
  | nil => intro acc id _; rfl
  | cons q entries ih =>
    intro acc id h
    rw [List.foldl_cons, ih _ id (fun p hp => h p (List.mem_cons_of_mem q hp))]
    rw [presetNodeStep_map]
    by_cases hq : q.1 < s0.nodes.length
    · rw [if_pos hq, SMap.get_insert,
        if_neg (fun hc => h q (List.mem_cons_self q entries) hq hc.symm)]
    · rw [if_neg hq]

theorem fold_presetNode_map_some (s0 : AeroState) :
    ∀ (entries : List (Nat × NodeState)) (acc : AeroState × SMap Bool) (id : String) (v : Bool),
      (entries.foldl (presetNodeStep s0) acc).2.get id = some v →
      (acc.2.get id = some v ∨
        ∃ p, p ∈ entries ∧ p.1 < s0.nodes.length ∧
          (s0.config.nodes.getD p.1 Node.empty).id = id ∧ v = decide (p.2 = NodeState.on)) := by
  intro entries
  induction entries with
  | nil => intro acc id v h; exact Or.inl h
  | cons q entries ih =>
    intro acc id v h
    rw [List.foldl_cons] at h
    rcases ih _ id v h with hacc | ⟨p, hp, hlt, hid, hv⟩
    · rw [presetNodeStep_map] at hacc
      by_cases hq : q.1 < s0.nodes.length
      · rw [if_pos hq, SMap.get_insert] at hacc
        by_cases hid : id = (s0.config.nodes.getD q.1 Node.empty).id
        · rw [if_pos hid] at hacc
          refine Or.inr ⟨q, List.mem_cons_self q entries, hq, hid.symm, ?_⟩
          injection hacc with hval
          exact hval.symm
        · rw [if_neg hid] at hacc
          exact Or.inl hacc
      · rw [if_neg hq] at hacc
        exact Or.inl hacc
    · exact Or.inr ⟨p, List.mem_cons_of_mem q hp, hlt, hid, hv⟩

theorem fold_presetNode_map_mono (s0 : AeroState) :
    ∀ (entries : List (Nat × NodeState)) (acc : AeroState × SMap Bool) (id : String) (v : Bool),
      acc.2.get id = some v →
      ∃ v', (entries.foldl (presetNodeStep s0) acc).2.get id = some v' := by
  intro entries
  induction entries with
  | nil => intro acc id v h; exact ⟨v, h⟩
  | cons q entries ih =>
    intro acc id v h
    rw [List.foldl_cons]
    by_cases hq : q.1 < s0.nodes.length
    · by_cases hid : id = (s0.config.nodes.getD q.1 Node.empty).id
      · exact ih _ id (decide (q.2 = NodeState.on))
          (by rw [presetNodeStep_map, if_pos hq, SMap.get_insert, if_pos hid])
      · exact ih _ id v
          (by rw [presetNodeStep_map, if_pos hq, SMap.get_insert, if_neg hid]; exact h)
    · exact ih _ id v (by rw [presetNodeStep_map, if_neg hq]; exact h)

theorem fold_presetNode_map_covers (s0 : AeroState) :
    ∀ (entries : List (Nat × NodeState)) (acc : AeroState × SMap Bool) (p : Nat × NodeState),
      p ∈ entries → p.1 < s0.nodes.length →
      ∃ v, (entries.foldl (presetNodeStep s0) acc).2.get
        ((s0.config.nodes.getD p.1 Node.empty).id) = some v := by
  intro entries
  induction entries with
  | nil => intro acc p hp; cases hp
  | cons q entries ih =>
    intro acc p hp hlt
    rw [List.foldl_cons]
    rcases List.mem_cons.mp hp with rfl | hp'
    · exact fold_presetNode_map_mono s0 entries _ _ (decide (p.2 = NodeState.on))
        (by rw [presetNodeStep_map, if_pos hlt, SMap.get_insert, if_pos rfl])
    · exact ih _ p hp' hlt

theorem fold_presetNode_nodes_length (s0 : AeroState) :
    ∀ (entries : List (Nat × NodeState)) (acc : AeroState × SMap Bool),
      (entries.foldl (presetNodeStep s0) acc).1.nodes.length = acc.1.nodes.length := by
  intro entries
  induction entries with
  | nil => intro acc; rfl
  | cons q entries ih =>
    intro acc
    rw [List.foldl_cons, ih, presetNodeStep_nodes]
    by_cases hq : q.1 < s0.nodes.length
    · rw [if_pos hq, modifyAt_length]
    · rw [if_neg hq]

theorem fold_presetNode_nodes_frame (s0 : AeroState) :
    ∀ (entries : List (Nat × NodeState)) (acc : AeroState × SMap Bool) (j : Nat)
      (d : StateCell Bool),
      (∀ q ∈ entries, q.1 ≠ j) →
      (entries.foldl (presetNodeStep s0) acc).1.nodes.getD j d = acc.1.nodes.getD j d := by
  intro entries
  induction entries with
  | nil => intro acc j d _; rfl
  | cons q entries ih =>
    intro acc j d h
    rw [List.foldl_cons, ih _ j d (fun r hr => h r (List.mem_cons_of_mem q hr)),
      presetNodeStep_nodes]
    by_cases hq : q.1 < s0.nodes.length
    · rw [if_pos hq]
      exact modifyAt_getD_ne _ _ _ _ _
        (fun hc => h q (List.mem_cons_self q entries) hc.symm)
    · rw [if_neg hq]

theorem fold_presetNode_pending (s0 : AeroState) :
    ∀ (entries : List (Nat × NodeState)) (acc : AeroState × SMap Bool)
      (p : Nat × NodeState) (d : StateCell Bool),
      p ∈ entries → (entries.map Prod.fst).Nodup → p.1 < s0.nodes.length →
      acc.1.nodes.length = s0.nodes.length →
      ((entries.foldl (presetNodeStep s0) acc).1.nodes.getD p.1 d).pending
        = some (decide (p.2 = NodeState.on)) := by
  intro entries
  induction entries with
  | nil => intro acc p d hp; cases hp
  | cons q entries ih =>
    intro acc p d hp hnd hlt hlen
    have hnd' := hnd
    rw [List.map_cons] at hnd'
    obtain ⟨hhead, htail⟩ := List.nodup_cons.mp hnd'
    rw [List.foldl_cons]
    rcases List.mem_cons.mp hp with rfl | hp'
    · rw [fold_presetNode_nodes_frame s0 entries (presetNodeStep s0 acc p) p.1 d
        (fun r hr hc => hhead (by rw [← hc]; exact List.mem_map.mpr ⟨r, hr, rfl⟩)),
        presetNodeStep_nodes, if_pos hlt,
        modifyAt_getD_self _ _ _ _ (by rw [hlen]; exact hlt)]
    · refine ih _ p d hp' htail hlt ?_
      rw [presetNodeStep_nodes]
      by_cases hq : q.1 < s0.nodes.length
      · rw [if_pos hq, modifyAt_length]
        exact hlen
      · rw [if_neg hq]
        exact hlen

theorem fold_presetNode_blocks_frame (s0 : AeroState) :
    ∀ (entries : List (Nat × NodeState)) (acc : AeroState × SMap Bool),
      (entries.foldl (presetNodeStep s0) acc).1.blocks = acc.1.blocks := by
  intro entries
  induction entries with
  | nil => intro acc; rfl
  | cons q entries ih =>
    intro acc
    rw [List.foldl_cons, ih, presetNodeStep_blocks]

theorem fold_presetBlock_map_frame (s0 : AeroState) :
    ∀ (entries : List (Nat × BlockState)) (acc : AeroState × SMap IpcBlockState) (id : String),
      (∀ p ∈ entries, p.1 < s0.blocks.length → (s0.config.blocks.getD p.1 Block.empty).id ≠ id) →
      (entries.foldl (presetBlockStep s0) acc).2.get id = acc.2.get id := by
  intro entries
  induction entries with
  | nil => intro acc id _; rfl
  | cons q entries ih =>
    intro acc id h
    rw [List.foldl_cons, ih _ id (fun p hp => h p (List.mem_cons_of_mem q hp)),
      presetBlockStep_map]
    by_cases hq : q.1 < s0.blocks.length
    · rw [if_pos hq, SMap.get_insert,
        if_neg (fun hc => h q (List.mem_cons_self q entries) hq hc.symm)]
    · rw [if_neg hq]

theorem fold_presetBlock_map_some (s0 : AeroState) :
    ∀ (entries : List (Nat × BlockState)) (acc : AeroState × SMap IpcBlockState)
      (id : String) (v : IpcBlockState),
      (entries.foldl (presetBlockStep s0) acc).2.get id = some v →
      (acc.2.get id = some v ∨
        ∃ p, p ∈ entries ∧ p.1 < s0.blocks.length ∧
          (s0.config.blocks.getD p.1 Block.empty).id = id ∧ v = s0.bs_conf_to_ipc p.2) := by
  intro entries
  induction entries with
  | nil => intro acc id v h; exact Or.inl h
  | cons q entries ih =>
    intro acc id v h
    rw [List.foldl_cons] at h
    rcases ih _ id v h with hacc | ⟨p, hp, hlt, hid, hv⟩
    · rw [presetBlockStep_map] at hacc
      by_cases hq : q.1 < s0.blocks.length
      · rw [if_pos hq, SMap.get_insert] at hacc
        by_cases hid : id = (s0.config.blocks.getD q.1 Block.empty).id
        · rw [if_pos hid] at hacc
          refine Or.inr ⟨q, List.mem_cons_self q entries, hq, hid.symm, ?_⟩
          injection hacc with hval
          exact hval.symm
        · rw [if_neg hid] at hacc
          exact Or.inl hacc
      · rw [if_neg hq] at hacc
        exact Or.inl hacc
    · exact Or.inr ⟨p, List.mem_cons_of_mem q hp, hlt, hid, hv⟩

theorem fold_presetBlock_map_mono (s0 : AeroState) :
    ∀ (entries : List (Nat × BlockState)) (acc : AeroState × SMap IpcBlockState)
      (id : String) (v : IpcBlockState),
      acc.2.get id = some v →
      ∃ v', (entries.foldl (presetBlockStep s0) acc).2.get id = some v' := by
  intro entries
  induction entries with
  | nil => intro acc id v h; exact ⟨v, h⟩
  | cons q entries ih =>
    intro acc id v h
    rw [List.foldl_cons]
    by_cases hq : q.1 < s0.blocks.length
    · by_cases hid : id = (s0.config.blocks.getD q.1 Block.empty).id
      · exact ih _ id (s0.bs_conf_to_ipc q.2)
          (by rw [presetBlockStep_map, if_pos hq, SMap.get_insert, if_pos hid])
      · exact ih _ id v
          (by rw [presetBlockStep_map, if_pos hq, SMap.get_insert, if_neg hid]; exact h)
    · exact ih _ id v (by rw [presetBlockStep_map, if_neg hq]; exact h)

theorem fold_presetBlock_map_covers (s0 : AeroState) :
    ∀ (entries : List (Nat × BlockState)) (acc : AeroState × SMap IpcBlockState)
      (p : Nat × BlockState),
      p ∈ entries → p.1 < s0.blocks.length →
      ∃ v, (entries.foldl (presetBlockStep s0) acc).2.get
        ((s0.config.blocks.getD p.1 Block.empty).id) = some v := by
  intro entries
  induction entries with
  | nil => intro acc p hp; cases hp
  | cons q entries ih =>
    intro acc p hp hlt
    rw [List.foldl_cons]
    rcases List.mem_cons.mp hp with rfl | hp'
    · exact fold_presetBlock_map_mono s0 entries _ _ (s0.bs_conf_to_ipc p.2)
        (by rw [presetBlockStep_map, if_pos hlt, SMap.get_insert, if_pos rfl])
    · exact ih _ p hp' hlt

theorem fold_presetBlock_blocks_length (s0 : AeroState) :
    ∀ (entries : List (Nat × BlockState)) (acc : AeroState × SMap IpcBlockState),
      (entries.foldl (presetBlockStep s0) acc).1.blocks.length = acc.1.blocks.length := by
  intro entries
  induction entries with
  | nil => intro acc; rfl
  | cons q entries ih =>
    intro acc
    rw [List.foldl_cons, ih, presetBlockStep_blocks]
    by_cases hq : q.1 < s0.blocks.length
    · rw [if_pos hq, modifyAt_length]
    · rw [if_neg hq]

theorem fold_presetBlock_blocks_frame (s0 : AeroState) :
    ∀ (entries : List (Nat × BlockState)) (acc : AeroState × SMap IpcBlockState) (j : Nat)
      (d : StateCell BlockState),
      (∀ q ∈ entries, q.1 ≠ j) →
      (entries.foldl (presetBlockStep s0) acc).1.blocks.getD j d = acc.1.blocks.getD j d := by
  intro entries
  induction entries with
  | nil => intro acc j d _; rfl
  | cons q entries ih =>
    intro acc j d h
    rw [List.foldl_cons, ih _ j d (fun r hr => h r (List.mem_cons_of_mem q hr)),
      presetBlockStep_blocks]
    by_cases hq : q.1 < s0.blocks.length
    · rw [if_pos hq]
      exact modifyAt_getD_ne _ _ _ _ _
        (fun hc => h q (List.mem_cons_self q entries) hc.symm)
    · rw [if_neg hq]

theorem fold_presetBlock_pending (s0 : AeroState) :
    ∀ (entries : List (Nat × BlockState)) (acc : AeroState × SMap IpcBlockState)
      (p : Nat × BlockState) (d : StateCell BlockState),
      p ∈ entries → (entries.map Prod.fst).Nodup → p.1 < s0.blocks.length →
      acc.1.blocks.length = s0.blocks.length →
      ((entries.foldl (presetBlockStep s0) acc).1.blocks.getD p.1 d).pending = some p.2 := by
  intro entries
  induction entries with
  | nil => intro acc p d hp; cases hp
  | cons q entries ih =>
    intro acc p d hp hnd hlt hlen
    have hnd' := hnd
    rw [List.map_cons] at hnd'
    obtain ⟨hhead, htail⟩ := List.nodup_cons.mp hnd'
    rw [List.foldl_cons]
    rcases List.mem_cons.mp hp with rfl | hp'
    · rw [fold_presetBlock_blocks_frame s0 entries (presetBlockStep s0 acc p) p.1 d
        (fun r hr hc => hhead (by rw [← hc]; exact List.mem_map.mpr ⟨r, hr, rfl⟩)),
        presetBlockStep_blocks, if_pos hlt,
        modifyAt_getD_self _ _ _ _ (by rw [hlen]; exact hlt)]
    · refine ih _ p d hp' htail hlt ?_
      rw [presetBlockStep_blocks]
      by_cases hq : q.1 < s0.blocks.length
      · rw [if_pos hq, modifyAt_length]
        exact hlen
      · rw [if_neg hq]
        exact hlen

theorem fold_presetBlock_nodes_frame (s0 : AeroState) :
    ∀ (entries : List (Nat × BlockState)) (acc : AeroState × SMap IpcBlockState),
      (entries.foldl (presetBlockStep s0) acc).1.nodes = acc.1.nodes := by
  intro entries
  induction entries with
  | nil => intro acc; rfl
  | cons q entries ih =>
    intro acc
    rw [List.foldl_cons, ih, presetBlockStep_nodes]

/-- C4: for a valid preset index, `apply_preset` REPLACES the pending
patch's node and block maps with exactly the preset's in-range entries
(old keys are gone, present keys come from the preset with its values,
every in-range entry is covered), sets the pending side of each in-range
node/block to the preset's target value, replaces `pending_nodes` with
ALL the preset's node indices, and clears both timer lists.  The `Nodup`
hypotheses state that the preset names each node and block at most once. -/

theorem C4_apply_preset_replaces (s : AeroState) (i : Nat)
    (hi : i < s.currentProfile.presets.length)
    (hndn : ((presetAt s i).nodes.map Prod.fst).Nodup)
    (hndb : ((presetAt s i).blocks.map Prod.fst).Nodup) :
    (∀ id : String, (∀ p ∈ (presetAt s i).nodes, p.1 < s.nodes.length →
        (s.config.nodes.getD p.1 Node.empty).id ≠ id) →
      (apply_preset s i).pending_patch.nodes.get id = Option.none) ∧
    (∀ (id : String) (v : Bool), (apply_preset s i).pending_patch.nodes.get id = some v →
      ∃ p, p ∈ (presetAt s i).nodes ∧ p.1 < s.nodes.length ∧
        (s.config.nodes.getD p.1 Node.empty).id = id ∧ v = decide (p.2 = NodeState.on)) ∧
    (∀ p ∈ (presetAt s i).nodes, p.1 < s.nodes.length →
      ∃ v, (apply_preset s i).pending_patch.nodes.get
        ((s.config.nodes.getD p.1 Node.empty).id) = some v) ∧
    (∀ p ∈ (presetAt s i).nodes, p.1 < s.nodes.length →
      ((apply_preset s i).nodeCell p.1).pending = some (decide (p.2 = NodeState.on))) ∧
    (∀ id : String, (∀ p ∈ (presetAt s i).blocks, p.1 < s.blocks.length →
        (s.config.blocks.getD p.1 Block.empty).id ≠ id) →
      (apply_preset s i).pending_patch.blocks.get id = Option.none) ∧
    (∀ (id : String) (v : IpcBlockState),
        (apply_preset s i).pending_patch.blocks.get id = some v →
      ∃ p, p ∈ (presetAt s i).blocks ∧ p.1 < s.blocks.length ∧
        (s.config.blocks.getD p.1 Block.empty).id = id ∧ v = s.bs_conf_to_ipc p.2) ∧
    (∀ p ∈ (presetAt s i).blocks, p.1 < s.blocks.length →
      ∃ v, (apply_preset s i).pending_patch.blocks.get
        ((s.config.blocks.getD p.1 Block.empty).id) = some v) ∧
    (∀ p ∈ (presetAt s i).blocks, p.1 < s.blocks.length →
      ((apply_preset s i).blockCell p.1).pending = some p.2) ∧
    (apply_preset s i).pending_nodes = (presetAt s i).nodes.map Prod.fst ∧
    (apply_preset s i).node_timers = [] ∧
    (apply_preset s i).block_timers = [] := by
  have happ : apply_preset s i =
      { ((presetAt s i).blocks.foldl (presetBlockStep s)
          (((presetAt s i).nodes.foldl (presetNodeStep s) (s, [])).1, [])).1 with
        pending_patch := { (((presetAt s i).blocks.foldl (presetBlockStep s)
            (((presetAt s i).nodes.foldl (presetNodeStep s) (s, [])).1, [])).1).pending_patch with
          nodes := ((presetAt s i).nodes.foldl (presetNodeStep s) (s, [])).2
          blocks := ((presetAt s i).blocks.foldl (presetBlockStep s)
            (((presetAt s i).nodes.foldl (presetNodeStep s) (s, [])).1, [])).2 }
        pending_nodes := (presetAt s i).nodes.map (fun p => p.1)
        node_timers := []
        block_timers := [] } := by
    unfold apply_preset
    rw [if_neg (Nat.not_le.mpr hi)]
  refine ⟨?_, ?_, ?_, ?_, ?_, ?_, ?_, ?_, ?_, ?_, ?_⟩
  · intro id hid
    rw [happ]
    show (((presetAt s i).nodes.foldl (presetNodeStep s) (s, [])).2).get id = Option.none
    rw [fold_presetNode_map_frame s (presetAt s i).nodes (s, []) id hid]
    rfl
  · intro id v h
    rw [happ] at h
    have h' : (((presetAt s i).nodes.foldl (presetNodeStep s) (s, [])).2).get id = some v := h
    rcases fold_presetNode_map_some s (presetAt s i).nodes (s, []) id v h' with hl | hr
    · exact absurd hl (by simp [SMap.get])
    · exact hr
  · intro p hp hlt
    rw [happ]
    exact fold_presetNode_map_covers s (presetAt s i).nodes (s, []) p hp hlt
  · intro p hp hlt
    rw [happ]
    show ((((presetAt s i).blocks.foldl (presetBlockStep s)
      (((presetAt s i).nodes.foldl (presetNodeStep s) (s, [])).1, [])).1).nodes.getD p.1
        { current := false, pending := Option.none }).pending = _
    rw [fold_presetBlock_nodes_frame s (presetAt s i).blocks]
    exact fold_presetNode_pending s (presetAt s i).nodes (s, []) p _ hp hndn hlt rfl
  · intro id hid
    rw [happ]
    show (((presetAt s i).blocks.foldl (presetBlockStep s)
      (((presetAt s i).nodes.foldl (presetNodeStep s) (s, [])).1, [])).2).get id = Option.none
    rw [fold_presetBlock_map_frame s (presetAt s i).blocks _ id hid]
    rfl
  · intro id v h
    rw [happ] at h
    have h' : (((presetAt s i).blocks.foldl (presetBlockStep s)
      (((presetAt s i).nodes.foldl (presetNodeStep s) (s, [])).1, [])).2).get id = some v := h
    rcases fold_presetBlock_map_some s (presetAt s i).blocks _ id v h' with hl | hr
    · exact absurd hl (by simp [SMap.get])
    · exact hr
  · intro p hp hlt
    rw [happ]
    exact fold_presetBlock_map_covers s (presetAt s i).blocks _ p hp hlt
  · intro p hp hlt
    rw [happ]
    show ((((presetAt s i).blocks.foldl (presetBlockStep s)
      (((presetAt s i).nodes.foldl (presetNodeStep s) (s, [])).1, [])).1).blocks.getD p.1
        { current := BlockState.clear, pending := Option.none }).pending = _
    refine fold_presetBlock_pending s (presetAt s i).blocks _ p _ hp hndb hlt ?_
    show (((presetAt s i).nodes.foldl (presetNodeStep s) (s, [])).1).blocks.length
      = s.blocks.length
    rw [fold_presetNode_blocks_frame s (presetAt s i).nodes (s, [])]
  · rw [happ]
  · rw [happ]
  · rw [happ]

/-- Witness for `C4_apply_preset_replaces` on `cfgPreset`, preset 0. -/

theorem C4_witness :
    (apply_preset (mkAerodrome cfgPreset) 0).pending_patch.nodes.get "ZZZ" = Option.none ∧
    ((apply_preset (mkAerodrome cfgPreset) 0).nodeCell ((0, NodeState.off) : Nat × NodeState).1).pending
      = some (decide (((0, NodeState.off) : Nat × NodeState).2 = NodeState.on)) ∧
    ((apply_preset (mkAerodrome cfgPreset) 0).blockCell ((0, BlockState.relax) : Nat × BlockState).1).pending
      = some ((0, BlockState.relax) : Nat × BlockState).2 ∧
    (apply_preset (mkAerodrome cfgPreset) 0).pending_nodes
      = (presetAt (mkAerodrome cfgPreset) 0).nodes.map Prod.fst ∧
    (apply_preset (mkAerodrome cfgPreset) 0).node_timers = [] :=
  ⟨(C4_apply_preset_replaces (mkAerodrome cfgPreset) 0 (by decide) (by decide) (by decide)).1
      "ZZZ" (by decide),
    (C4_apply_preset_replaces (mkAerodrome cfgPreset) 0 (by decide) (by decide) (by decide)).2.2.2.1
      (0, NodeState.off) (by decide) (by decide),
    (C4_apply_preset_replaces (mkAerodrome cfgPreset) 0 (by decide) (by decide) (by decide)).2.2.2.2.2.2.2.1
      (0, BlockState.relax) (by decide) (by decide),
    (C4_apply_preset_replaces (mkAerodrome cfgPreset) 0 (by decide) (by decide) (by decide)).2.2.2.2.2.2.2.2.1,
    (C4_apply_preset_replaces (mkAerodrome cfgPreset) 0 (by decide) (by decide) (by decide)).2.2.2.2.2.2.2.2.2.1⟩

theorem SMap.size_insert {β : Type} [DecidableEq β] (m : SMap β) (k : String) (v : β) :
    (m.insert k v).size
      = if m.get k = Option.none then m.size + 1 else m.size := by
  induction m with
  | nil => rfl
  | cons p rest ih =>
    simp only [SMap.insert, SMap.get]
    by_cases h1 : p.1 = k
    · simp only [if_pos h1]
      simp [SMap.size]
    · simp only [if_neg h1]
      show (SMap.insert rest k v).size + 1 = _
      rw [ih]
      cases hg : SMap.get rest k <;> simp [hg, SMap.size]

theorem fold_insert_frame {α : Type} (key : α → String) (val : α → Bool) :
    ∀ (l : List α) (acc : SMap Bool) (id : String),
      (∀ x ∈ l, key x ≠ id) →
      (l.foldl (fun (m : SMap Bool) e => SMap.insert m (key e) (val e)) acc).get id = acc.get id := by
  intro l
  induction l with
  | nil => intro acc id _; rfl
  | cons q l ih =>
    intro acc id h
    rw [List.foldl_cons, ih _ id (fun x hx => h x (List.mem_cons_of_mem q hx)),
      SMap.get_insert, if_neg (fun hc => h q (List.mem_cons_self q l) hc.symm)]

theorem fold_insert_mono {α : Type} (key : α → String) (val : α → Bool) :
    ∀ (l : List α) (acc : SMap Bool) (id : String) (v : Bool),
      acc.get id = some v →
      ∃ v', (l.foldl (fun (m : SMap Bool) e => SMap.insert m (key e) (val e)) acc).get id = some v' := by
  intro l
  induction l with
  | nil => intro acc id v h; exact ⟨v, h⟩
  | cons q l ih =>
    intro acc id v h
    rw [List.foldl_cons]
    by_cases hid : id = key q
    · exact ih _ id (val q) (by rw [SMap.get_insert, if_pos hid])
    · exact ih _ id v (by rw [SMap.get_insert, if_neg hid]; exact h)

theorem fold_insert_covers {α : Type} (key : α → String) (val : α → Bool) :
    ∀ (l : List α) (acc : SMap Bool) (x : α), x ∈ l →
      ∃ v, (l.foldl (fun (m : SMap Bool) e => SMap.insert m (key e) (val e)) acc).get (key x) = some v := by
  intro l
  induction l with
  | nil => intro acc x hx; cases hx
  | cons q l ih =>
    intro acc x hx
    rw [List.foldl_cons]
    rcases List.mem_cons.mp hx with rfl | hx'
    · exact fold_insert_mono key val l _ (key x) (val x)
        (by rw [SMap.get_insert, if_pos rfl])
    · exact ih _ x hx'

theorem fold_insert_get_last {α : Type} (key : α → String) (val : α → Bool) :
    ∀ (l : List α) (acc : SMap Bool), (l.map key).Nodup →
      ∀ x ∈ l, (l.foldl (fun (m : SMap Bool) e => SMap.insert m (key e) (val e)) acc).get (key x) = some (val x) := by
  intro l
  induction l with
  | nil => intro acc _ x hx; cases hx
  | cons q l ih =>
    intro acc hnd x hx
    have hnd' := hnd
    rw [List.map_cons] at hnd'
    obtain ⟨hhead, htail⟩ := List.nodup_cons.mp hnd'
    rw [List.foldl_cons]
    rcases List.mem_cons.mp hx with rfl | hx'
    · rw [fold_insert_frame key val l _ (key x)
        (fun y hy hc => hhead (by rw [← hc]; exact List.mem_map.mpr ⟨y, hy, rfl⟩)),
        SMap.get_insert, if_pos rfl]
    · exact ih _ htail x hx'

theorem fold_insert_size {α : Type} (key : α → String) (val : α → Bool) :
    ∀ (l : List α) (acc : SMap Bool), (l.map key).Nodup →
      (∀ x ∈ l, acc.get (key x) = Option.none) →
      (l.foldl (fun (m : SMap Bool) e => SMap.insert m (key e) (val e)) acc).size = acc.size + l.length := by
  intro l
  induction l with
  | nil => intro acc _ _; rfl
  | cons q l ih =>
    intro acc hnd hnone
    have hnd' := hnd
    rw [List.map_cons] at hnd'
    obtain ⟨hhead, htail⟩ := List.nodup_cons.mp hnd'
    rw [List.foldl_cons]
    have hsz : (acc.insert (key q) (val q)).size = acc.size + 1 := by
      rw [SMap.size_insert, if_pos (hnone q (List.mem_cons_self q l))]
    have hnone' : ∀ x ∈ l, (acc.insert (key q) (val q)).get (key x) = Option.none := by
      intro x hx
      rw [SMap.get_insert,
        if_neg (fun hc => hhead (by rw [← hc]; exact List.mem_map.mpr ⟨x, hx, rfl⟩))]
      exact hnone x (List.mem_cons_of_mem q hx)
    rw [ih _ htail hnone', hsz, List.length_cons]
    omega

theorem set_default_state_pp_profile (s : AeroState) (b : Bool) :
    (set_default_state s b).pending_patch.profile = s.pending_patch.profile := by
  unfold set_default_state
  cases b <;> rfl

theorem set_default_state_config (s : AeroState) (b : Bool) :
    (set_default_state s b).config = s.config := by
  unfold set_default_state
  cases b <;> rfl

theorem set_profile_pp_profile (s : AeroState) (i : Nat) (hi : i < s.config.profiles.length) :
    (set_profile s i).pending_patch.profile
      = some (s.config.profiles.getD i Profile.empty).id := by
  unfold set_profile
  rw [if_neg (Nat.not_le.mpr hi), set_default_state_pp_profile]

theorem set_profile_config (s : AeroState) (i : Nat) :
    (set_profile s i).config = s.config := by
  unfold set_profile
  split
  · rfl
  · rw [set_default_state_config]

theorem take_pending_profile (s : AeroState) (h : s.pending_patch.profile.isSome) :
    (take_pending s).2.1 = s.pending_patch ∧
    (take_pending s).2.2 = fullScenery s (calculate_edges s) := by
  unfold take_pending
  refine ⟨rfl, ?_⟩
  dsimp only
  rw [if_pos h]

theorem presetNodeStep_pp (s0 : AeroState) (acc : AeroState × SMap Bool) (p : Nat × NodeState) :
    (presetNodeStep s0 acc p).1.pending_patch = acc.1.pending_patch := by
  unfold presetNodeStep
  split <;> rfl

theorem presetBlockStep_pp (s0 : AeroState) (acc : AeroState × SMap IpcBlockState)
    (p : Nat × BlockState) :
    (presetBlockStep s0 acc p).1.pending_patch = acc.1.pending_patch := by
  unfold presetBlockStep
  split <;> rfl

theorem fold_presetNode_pp (s0 : AeroState) :
    ∀ (entries : List (Nat × NodeState)) (acc : AeroState × SMap Bool),
      (entries.foldl (presetNodeStep s0) acc).1.pending_patch = acc.1.pending_patch := by
  intro entries
  induction entries with
  | nil => intro acc; rfl
  | cons q entries ih =>
    intro acc
    rw [List.foldl_cons, ih, presetNodeStep_pp]

theorem fold_presetBlock_pp (s0 : AeroState) :
    ∀ (entries : List (Nat × BlockState)) (acc : AeroState × SMap IpcBlockState),
      (entries.foldl (presetBlockStep s0) acc).1.pending_patch = acc.1.pending_patch := by
  intro entries
  induction entries with
  | nil => intro acc; rfl
  | cons q entries ih =>
    intro acc
    rw [List.foldl_cons, ih, presetBlockStep_pp]

theorem presetNodeStep_config (s0 : AeroState) (acc : AeroState × SMap Bool)
    (p : Nat × NodeState) :
    (presetNodeStep s0 acc p).1.config = acc.1.config := by
  unfold presetNodeStep
  split <;> rfl

theorem presetBlockStep_config (s0 : AeroState) (acc : AeroState × SMap IpcBlockState)
    (p : Nat × BlockState) :
    (presetBlockStep s0 acc p).1.config = acc.1.config := by
  unfold presetBlockStep
  split <;> rfl

theorem fold_presetNode_config (s0 : AeroState) :
    ∀ (entries : List (Nat × NodeState)) (acc : AeroState × SMap Bool),
      (entries.foldl (presetNodeStep s0) acc).1.config = acc.1.config := by
  intro entries
  induction entries with
  | nil => intro acc; rfl
  | cons q entries ih =>
    intro acc
    rw [List.foldl_cons, ih, presetNodeStep_config]

theorem fold_presetBlock_config (s0 : AeroState) :
    ∀ (entries : List (Nat × BlockState)) (acc : AeroState × SMap IpcBlockState),
      (entries.foldl (presetBlockStep s0) acc).1.config = acc.1.config := by
  intro entries
  induction entries with
  | nil => intro acc; rfl
  | cons q entries ih =>
    intro acc
    rw [List.foldl_cons, ih, presetBlockStep_config]

theorem apply_preset_pp_profile (s : AeroState) (i : Nat) :
    (apply_preset s i).pending_patch.profile = s.pending_patch.profile := by
  unfold apply_preset
  split
  · rfl
  · show ((presetAt s i).blocks.foldl (presetBlockStep s)
      (((presetAt s i).nodes.foldl (presetNodeStep s) (s, [])).1, [])).1.pending_patch.profile
      = s.pending_patch.profile
    rw [fold_presetBlock_pp]
    show (((presetAt s i).nodes.foldl (presetNodeStep s) (s, []))).1.pending_patch.profile
      = s.pending_patch.profile
    rw [fold_presetNode_pp]

theorem apply_preset_config (s : AeroState) (i : Nat) :
    (apply_preset s i).config = s.config := by
  unfold apply_preset
  split
  · rfl
  · show ((presetAt s i).blocks.foldl (presetBlockStep s)
      (((presetAt s i).nodes.foldl (presetNodeStep s) (s, [])).1, [])).1.config = s.config
    rw [fold_presetBlock_config]
    show (((presetAt s i).nodes.foldl (presetNodeStep s) (s, []))).1.config = s.config
    rw [fold_presetNode_config]

/-- C5, counterexample: with two elements sharing the id `"X"` (values
`true` then `false`), the scenery after `set_profile 0` has a single
entry, not one per element, and maps element 0's id to element 1's value. -/

theorem C5_counterexample :
    (mkAerodrome cfgDupElems).config.profiles.length = 1 ∧
    (take_pending (set_profile (mkAerodrome cfgDupElems) 0)).2.2.size = 1 ∧
    (mkAerodrome cfgDupElems).config.elements.length = 2 ∧
    (take_pending (set_profile (mkAerodrome cfgDupElems) 0)).2.2.get "X" = some false := by
  decide

/-- C5 (amended): after a valid `set_profile i`, the next `take_pending`
carries the new profile id in the patch and emits the full-refresh
scenery: every element's id is a key, and — provided element ids are
distinct — the scenery has exactly one entry per element, mapping each
element's id to its effective value under the new profile's defaults
(elements sharing an id collapse to one entry holding the last such
element's value). -/

theorem C5_set_profile_full_refresh (s : AeroState) (i : Nat)
    (hi : i < s.config.profiles.length) :
    (take_pending (set_profile s i)).2.1.profile
        = some (s.config.profiles.getD i Profile.empty).id ∧
    (∀ e ∈ s.config.elements, ∃ v, (take_pending (set_profile s i)).2.2.get e.id = some v) ∧
    ((s.config.elements.map (fun e => e.id)).Nodup →
      ((take_pending (set_profile s i)).2.2.size = s.config.elements.length ∧
        ∀ e ∈ s.config.elements,
          (take_pending (set_profile s i)).2.2.get e.id
            = some (sceneryValue (set_profile s i) (calculate_edges (set_profile s i)) e))) := by
  have hpp := set_profile_pp_profile s i hi
  have hsome : (set_profile s i).pending_patch.profile.isSome := by rw [hpp]; rfl
  obtain ⟨hp1, hp2⟩ := take_pending_profile (set_profile s i) hsome
  have hel : (set_profile s i).config.elements = s.config.elements := by
    rw [set_profile_config]
  have hfs : (take_pending (set_profile s i)).2.2
      = s.config.elements.foldl
          (fun (m : SMap Bool) e => SMap.insert m e.id
            (sceneryValue (set_profile s i) (calculate_edges (set_profile s i)) e)) [] := by
    rw [hp2]
    unfold fullScenery
    rw [hel]
  refine ⟨?_, ?_, ?_⟩
  · rw [hp1, hpp]
  · intro e he
    rw [hfs]
    exact fold_insert_covers (fun e => e.id)
      (fun e => sceneryValue (set_profile s i) (calculate_edges (set_profile s i)) e)
      s.config.elements [] e he
  · intro hnd
    refine ⟨?_, ?_⟩
    · rw [hfs]
      have := fold_insert_size (fun e => e.id)
        (fun e => sceneryValue (set_profile s i) (calculate_edges (set_profile s i)) e)
        s.config.elements [] hnd (fun x _ => rfl)
      exact this.trans (by simp [SMap.size])
    · intro e he
      rw [hfs]
      exact fold_insert_get_last (fun e => e.id)
        (fun e => sceneryValue (set_profile s i) (calculate_edges (set_profile s i)) e)
        s.config.elements [] hnd e he

/-- Witness for `C5_set_profile_full_refresh` on `cfgElems`. -/

theorem C5_witness :
    (take_pending (set_profile (mkAerodrome cfgElems) 0)).2.1.profile
        = some ((mkAerodrome cfgElems).config.profiles.getD 0 Profile.empty).id ∧
    (take_pending (set_profile (mkAerodrome cfgElems) 0)).2.2.size
        = (mkAerodrome cfgElems).config.elements.length ∧
    (take_pending (set_profile (mkAerodrome cfgElems) 0)).2.2.get
        ({ id := "E1", condition := ElementCondition.fixed true } : Element).id
      = some (sceneryValue (set_profile (mkAerodrome cfgElems) 0)
          (calculate_edges (set_profile (mkAerodrome cfgElems) 0))
          { id := "E1", condition := ElementCondition.fixed true }) :=
  ⟨(C5_set_profile_full_refresh (mkAerodrome cfgElems) 0 (by decide)).1,
    ((C5_set_profile_full_refresh (mkAerodrome cfgElems) 0 (by decide)).2.2 (by decide)).1,
    ((C5_set_profile_full_refresh (mkAerodrome cfgElems) 0 (by decide)).2.2 (by decide)).2
      { id := "E1", condition := ElementCondition.fixed true } (by decide)⟩

/-- C10, counterexample: `apply_preset` keeps the pending profile id, but
with two elements sharing one id the next flush's scenery has a single
entry for two elements, so the claim's "(one entry per element)" fails. -/

theorem C10_counterexample :
    (apply_preset (set_profile (mkAerodrome cfgDupPreset) 0) 0).pending_patch.profile
        = some "P0" ∧
    (take_pending (apply_preset (set_profile (mkAerodrome cfgDupPreset) 0) 0)).2.2.size = 1 ∧
    (set_profile (mkAerodrome cfgDupPreset) 0).config.elements.length = 2 := by
  decide

/-- C10 (amended): `apply_preset` never writes `pending_patch.profile`;
if a profile change is pending, it stays pending, and the next
`take_pending` still performs the full scenery refresh — one entry per
distinct element id, each element's id present and, for distinct ids,
mapped to its effective state — carrying the profile id upstream. -/

theorem C10_preset_keeps_profile (s : AeroState) (i : Nat) :
    (apply_preset s i).pending_patch.profile = s.pending_patch.profile ∧
    ∀ p : String, s.pending_patch.profile = some p →
      ((take_pending (apply_preset s i)).2.1.profile = some p ∧
        (∀ e ∈ s.config.elements, ∃ v, (take_pending (apply_preset s i)).2.2.get e.id = some v) ∧
        ((s.config.elements.map (fun e => e.id)).Nodup →
          ((take_pending (apply_preset s i)).2.2.size = s.config.elements.length ∧
            ∀ e ∈ s.config.elements,
              (take_pending (apply_preset s i)).2.2.get e.id
                = some (sceneryValue (apply_preset s i)
                    (calculate_edges (apply_preset s i)) e)))) := by
  have hpp := apply_preset_pp_profile s i
  refine ⟨hpp, ?_⟩
  intro p hp
  have hpp' : (apply_preset s i).pending_patch.profile = some p := by rw [hpp]; exact hp
  have hsome : (apply_preset s i).pending_patch.profile.isSome := by rw [hpp']; rfl
  obtain ⟨hp1, hp2⟩ := take_pending_profile (apply_preset s i) hsome
  have hel : (apply_preset s i).config.elements = s.config.elements := by
    rw [apply_preset_config]
  have hfs : (take_pending (apply_preset s i)).2.2
      = s.config.elements.foldl
          (fun (m : SMap Bool) e => SMap.insert m e.id
            (sceneryValue (apply_preset s i) (calculate_edges (apply_preset s i)) e)) [] := by
    rw [hp2]
    unfold fullScenery
    rw [hel]
  refine ⟨?_, ?_, ?_⟩
  · rw [hp1, hpp']
  · intro e he
    rw [hfs]
    exact fold_insert_covers (fun e => e.id)
      (fun e => sceneryValue (apply_preset s i) (calculate_edges (apply_preset s i)) e)
      s.config.elements [] e he
  · intro hnd
    refine ⟨?_, ?_⟩
    · rw [hfs]
      have := fold_insert_size (fun e => e.id)
        (fun e => sceneryValue (apply_preset s i) (calculate_edges (apply_preset s i)) e)
        s.config.elements [] hnd (fun x _ => rfl)
      exact this.trans (by simp [SMap.size])
    · intro e he
      rw [hfs]
      exact fold_insert_get_last (fun e => e.id)
        (fun e => sceneryValue (apply_preset s i) (calculate_edges (apply_preset s i)) e)
        s.config.elements [] hnd e he

/-- Witness for `C10_preset_keeps_profile` on `cfgElems` with a pending
profile change. -/

theorem C10_witness :
    (apply_preset (set_profile (mkAerodrome cfgElems) 0) 0).pending_patch.profile
      = (set_profile (mkAerodrome cfgElems) 0).pending_patch.profile ∧
    (take_pending (apply_preset (set_profile (mkAerodrome cfgElems) 0) 0)).2.1.profile
      = some "P0" ∧
    (take_pending (apply_preset (set_profile (mkAerodrome cfgElems) 0) 0)).2.2.size
      = (set_profile (mkAerodrome cfgElems) 0).config.elements.length :=
  ⟨(C10_preset_keeps_profile (set_profile (mkAerodrome cfgElems) 0) 0).1,
    ((C10_preset_keeps_profile (set_profile (mkAerodrome cfgElems) 0) 0).2 "P0" (by decide)).1,
    (((C10_preset_keeps_profile (set_profile (mkAerodrome cfgElems) 0) 0).2 "P0"
      (by decide)).2.2 (by decide)).1⟩

theorem listSet_getD_self {α : Type} (l : List α) (i : Nat) (v : α) (d : α)
    (h : i < l.length) : (l.set i v).getD i d = v := by
  induction l generalizing i with
  | nil => simp at h
  | cons x xs ih =>
    cases i with
    | zero => rfl
    | succ n => simpa [List.set] using ih n (by simpa using h)

theorem listSet_getD_ne {α : Type} (l : List α) (i j : Nat) (v : α) (d : α)
    (h : j ≠ i) : (l.set i v).getD j d = l.getD j d := by
  induction l generalizing i j with
  | nil => rfl
  | cons x xs ih =>
    cases i with
    | zero =>
      cases j with
      | zero => exact absurd rfl h
      | succ m => rfl
    | succ n =>
      cases j with
      | zero => rfl
      | succ m => simpa [List.set] using ih n m (fun hc => h (by rw [hc]))

theorem replicate_getD_of_lt {α : Type} (k n : Nat) (a d : α) (h : n < k) :
    (List.replicate k a).getD n d = a := by
  induction k generalizing n with
  | zero => simp at h
  | succ k ih =>
    cases n with
    | zero => rfl
    | succ m => simpa [List.replicate] using ih m (by omega)

theorem headD_append_of_ne_nil {α : Type} (l l' : List α) (d : α) (h : l ≠ []) :
    (l ++ l').headD d = l.headD d := by
  cases l with
  | nil => exact absurd rfl h
  | cons x xs => rfl

theorem getLastD_append_single {α : Type} (l : List α) (a d : α) :
    (l ++ [a]).getLastD d = a := by
  induction l with
  | nil => rfl
  | cons x xs ih => simp [List.getLastD, ih]

theorem getLastD_mem_cons {α : Type} : ∀ (os : List α) (o d : α),
    (o :: os).getLastD d ∈ o :: os := by
  intro os
  induction os with
  | nil => intro o d; simp [List.getLastD]
  | cons x xs ih =>
    intro o d
    rw [List.getLastD_cons]
    exact List.mem_cons_of_mem o (ih x o)

theorem set_default_state_node_blocks (s : AeroState) (b : Bool) :
    (set_default_state s b).node_blocks = s.node_blocks := by
  unfold set_default_state
  cases b <;> rfl

theorem foldl_blockNodeStep_inv (c : Aerodrome) (n : Nat) (hn : n < c.nodes.length)
    (i : Nat) (block : Block) (conns : List (Nat × Bool)) :
    ∀ (ms : List Nat) (st : BuildSt) (occs : List Nat),
      NBInv c n st occs →
      NBInv c n (ms.foldl (blockNodeStep i block conns) st)
        (occs ++ (ms.filter (fun m => decide (m = n))).map (fun _ => i)) := by
  intro ms
  induction ms with
  | nil =>
    intro st occs h
    simp only [List.foldl_nil, List.filter_nil, List.map_nil, List.append_nil]
    exact h
  | cons m ms ih =>
    intro st occs h
    rw [List.foldl_cons]
    by_cases hm : m = n
    · subst hm
      have hstep : NBInv c m (blockNodeStep i block conns st m) (occs ++ [i]) := by
        obtain ⟨h1, h2, h3, h4⟩ := h
        refine ⟨?_, ?_, ?_, ?_⟩
        · show (modifyAt st.node_blocks m _).getD m (0, 0) = _
          rw [modifyAt_getD_self _ _ _ _ (by rw [h3]; exact hn)]
          rw [show st.borders.getD m 0 = occs.length from h2]
          cases hocc : occs with
          | nil =>
            rw [hocc] at h1
            simp
          | cons o os =>
            rw [hocc] at h1
            rw [if_neg (by simp)]
            rw [h1]
            rw [headD_append_of_ne_nil _ _ _ (by simp), getLastD_append_single]
        · show (st.borders.set m _).getD m 0 = _
          rw [listSet_getD_self _ _ _ _ (by rw [h4]; exact hn), h2]
          simp
        · show (modifyAt st.node_blocks m _).length = _
          rw [modifyAt_length]
          exact h3
        · show (st.borders.set m _).length = _
          rw [List.length_set]
          exact h4
      have hrest := ih (blockNodeStep i block conns st m) (occs ++ [i]) hstep
      have hfilter : ((m :: ms).filter (fun x => decide (x = m))).map
          (fun _ => i) = i :: (ms.filter (fun x => decide (x = m))).map (fun _ => i) := by
        simp [List.filter_cons]
      rw [hfilter]
      simpa [List.append_assoc] using hrest
    · have hstep : NBInv c n (blockNodeStep i block conns st m) occs := by
        obtain ⟨h1, h2, h3, h4⟩ := h
        refine ⟨?_, ?_, ?_, ?_⟩
        · show (modifyAt st.node_blocks m _).getD n (0, 0) = _
          rw [modifyAt_getD_ne _ _ _ _ _ (fun hc => hm hc.symm)]
          exact h1
        · show (st.borders.set m _).getD n 0 = _
          rw [listSet_getD_ne _ _ _ _ _ (fun hc => hm hc.symm)]
          exact h2
        · show (modifyAt st.node_blocks m _).length = _
          rw [modifyAt_length]
          exact h3
        · show (st.borders.set m _).length = _
          rw [List.length_set]
          exact h4
      have hrest := ih (blockNodeStep i block conns st m) occs hstep
      have hfilter : ((m :: ms).filter (fun x => decide (x = n))).map
          (fun _ => i) = (ms.filter (fun x => decide (x = n))).map (fun _ => i) := by
        simp [List.filter_cons, hm]
      rw [hfilter]
      exact hrest

theorem foldl_blockStep_inv (c : Aerodrome) (n : Nat) (hn : n < c.nodes.length) :
    ∀ (L : List (Nat × Block)) (st : BuildSt) (occs : List Nat),
      NBInv c n st occs →
      NBInv c n (L.foldl blockStep st) (occs ++ occsOf L n) := by
  intro L
  induction L with
  | nil => intro st occs h; simpa [occsOf] using h
  | cons ib L ih =>
    intro st occs h
    rw [List.foldl_cons]
    have hst' : NBInv c n { st with block_ids := st.block_ids.insert ib.2.id ib.1 } occs := h
    have hinner := foldl_blockNodeStep_inv c n hn ib.1 ib.2
      (ib.2.nodes.map (fun node => (node, decide (st.borders.getD node 0 > 0))))
      ib.2.nodes _ occs hst'
    have hstep : NBInv c n (blockStep st ib)
        (occs ++ (ib.2.nodes.filter (fun m => decide (m = n))).map (fun _ => ib.1)) := hinner
    have := ih (blockStep st ib) _ hstep
    have hocc : occsOf (ib :: L) n
        = ((ib.2.nodes.filter (fun m => decide (m = n))).map (fun _ => ib.1)) ++ occsOf L n := by
      simp [occsOf, List.flatMap_cons]
    rw [hocc]
    simpa [List.append_assoc] using this

/-- C9: `node_blocks` starts as `[0, 0]` and each block writes only its
own parent nodes' entries, leaving the first and last occurrence; hence a
node in exactly one block `b` gets `(b, b)`, a node in no block keeps
`(0, 0)`, and a router node in no block has its `node_state` computed
from block index 0 (the per-block predicate applied to block 0), not from
a fixed default. -/

theorem C9_node_blocks_index (c : Aerodrome) (n : Nat) (hn : n < c.nodes.length) :
    ((mkAerodrome c).nodeBlocksAt n
        = ((blockOccs c n).headD 0, (blockOccs c n).getLastD 0)) ∧
    (blockOccs c n = [] → (mkAerodrome c).nodeBlocksAt n = (0, 0)) ∧
    (∀ b : Nat, blockOccs c n ≠ [] → (∀ x ∈ blockOccs c n, x = b) →
      (mkAerodrome c).nodeBlocksAt n = (b, b)) ∧
    (∀ (s : AeroState) (m : Nat), isRouterNode s m = true → s.nodeBlocksAt m = (0, 0) →
      node_state s m = blockClearsNode s 0 m) := by
  have hmk : (mkAerodrome c).node_blocks
      = (c.blocks.enum.foldl blockStep
          { borders := List.replicate c.nodes.length 0
            node_conns := List.replicate c.nodes.length ([], [])
            node_blocks := List.replicate c.nodes.length ((0 : Nat), (0 : Nat))
            block_ids := [] }).node_blocks := by
    unfold mkAerodrome
    rw [set_default_state_node_blocks]
  have hinv0 : NBInv c n
      { borders := List.replicate c.nodes.length 0
        node_conns := List.replicate c.nodes.length ([], [])
        node_blocks := List.replicate c.nodes.length ((0 : Nat), (0 : Nat))
        block_ids := [] } [] := by
    refine ⟨?_, ?_, ?_, ?_⟩
    · exact replicate_getD_of_lt _ _ _ _ hn
    · exact replicate_getD_of_lt _ _ _ _ hn
    · exact List.length_replicate _ _
    · exact List.length_replicate _ _
  have hinv := foldl_blockStep_inv c n hn c.blocks.enum _ [] hinv0
  rw [List.nil_append] at hinv
  have hmain : (mkAerodrome c).nodeBlocksAt n
      = ((blockOccs c n).headD 0, (blockOccs c n).getLastD 0) := by
    unfold AeroState.nodeBlocksAt
    rw [hmk]
    exact hinv.1
  refine ⟨hmain, ?_, ?_, ?_⟩
  · intro hocc
    rw [hmain, hocc]
    rfl
  · intro b hne hall
    rw [hmain]
    cases hocc : blockOccs c n with
    | nil => exact absurd hocc hne
    | cons o os =>
      have ho : o = b := hall o (by rw [hocc]; exact List.mem_cons_self o os)
      have hl : (o :: os).getLastD 0 = b :=
        hall _ (by rw [hocc]; exact getLastD_mem_cons os o 0)
      show (o, (o :: os).getLastD 0) = (b, b)
      rw [hl, ho]
  · intro s m hr h0
    have hrr : ∃ st, s.currentProfile.nodes.getD m (NodeCondition.fixed NodeState.off)
        = NodeCondition.router st := by
      unfold isRouterNode at hr
      cases hc : s.currentProfile.nodes.getD m (NodeCondition.fixed NodeState.off) with
      | router st => exact ⟨st, rfl⟩
      | fixed st => rw [hc] at hr; simp at hr
      | direct r => rw [hc] at hr; simp at hr
    obtain ⟨st, hst⟩ := hrr
    simp only [node_state, hst, h0]
    simp [Bool.or_self]

/-- Witness for `C9_node_blocks_index` on `cfgTwoBlocks` (node 1 borders
blocks 0 and 1; node 2 belongs only to block 1; node 0 of `stRelaxed` is
a router whose `node_blocks` entry is `(0, 0)`). -/

theorem C9_witness :
    (mkAerodrome cfgTwoBlocks).nodeBlocksAt 1
      = ((blockOccs cfgTwoBlocks 1).headD 0, (blockOccs cfgTwoBlocks 1).getLastD 0) ∧
    (mkAerodrome cfgTwoBlocks).nodeBlocksAt 2 = (1, 1) ∧
    node_state stRelaxed 0 = blockClearsNode stRelaxed 0 0 :=
  ⟨(C9_node_blocks_index cfgTwoBlocks 1 (by decide)).1,
    (C9_node_blocks_index cfgTwoBlocks 2 (by decide)).2.2.1 1 (by decide) (by decide),
    (C9_node_blocks_index cfgTwoBlocks 0 (by decide)).2.2.2 stRelaxed 0 (by decide) (by decide)⟩

/-- Witness for `C7_route_solver_termination` at concrete inputs. -/

theorem C7_witness :
    (routeSearch (mkAerodrome cfgSimpleRoute) 0 1 ≠ Option.none) ∧
    ([] : List Key).length ≤ 1000 ∧
    (((1, true, 1) : QItem) ∈ ([] : List QItem) ∨
      (((1 : Nat), true) ∉ ([((0 : Nat), false), (0, true)] : List Key) ∧
        ((1 : Nat), true) ∈ (expandSuccessors (mkAerodrome cfgSimpleRoute) 0 false 0 false
          ([], [((0 : Nat), false), (0, true)], [], [])).2.1)) :=
  ⟨C7_route_solver_termination.1 (mkAerodrome cfgSimpleRoute) 0 1,
    C7_route_solver_termination.2.1 [] Option.none [] rfl,
    C7_route_solver_termination.2.2 (mkAerodrome cfgSimpleRoute) 0 false 0 false
      [] [((0 : Nat), false), (0, true)] [] [] (1, true, 1) (by decide)⟩

theorem loadBytes_saveBytes {α : Type} (c : Codec α) (version : Nat)
    (compress decompress : List Nat → List Nat)
    (hcd : ∀ l, decompress (compress l) = l) (a : α) (hva : c.val a = true) :
    loadBytes version decompress c.dec (saveBytes version compress (c.enc a)) = some a := by
  unfold saveBytes loadBytes
  have h8 : (MAGIC ++ beBytes2 version ++ compress (c.enc a)).take 8 = MAGIC := by
    rw [List.append_assoc, show (8 : Nat) = MAGIC.length from rfl, List.take_left]
  have hd8 : (MAGIC ++ beBytes2 version ++ compress (c.enc a)).drop 8 =
      beBytes2 version ++ compress (c.enc a) := by
    rw [List.append_assoc, show (8 : Nat) = MAGIC.length from rfl, List.drop_left]
  have h2 : (beBytes2 version ++ compress (c.enc a)).take 2 = beBytes2 version := by
    rw [show (2 : Nat) = (beBytes2 version).length from rfl, List.take_left]
  have h10 : (MAGIC ++ beBytes2 version ++ compress (c.enc a)).drop 10 = compress (c.enc a) := by
    rw [show (10 : Nat) = (MAGIC ++ beBytes2 version).length from rfl, List.drop_left]
  rw [h8, if_pos rfl, hd8, h2, if_pos rfl, h10, hcd]
  rw [← List.append_nil (c.enc a), c.rt a [] hva]

/-- C8: for every well-typed `Aerodrome` value `a`,
`Aerodrome::decode(Aerodrome::encode(a))` reproduces `a`; for every
lossless compressor pair, `load(save(c))` reproduces every well-typed
framed container (`Config` and `Maps`); and the bytes written by `save`
are exactly the 8 magic bytes `FF 42 41 52 53 13 65 75`, then the 2-byte
big-endian version (`0x0001` for `Config`, `0x8002` for `Maps`), then the
compressed bincode body. -/

theorem C8_roundtrip_and_framing :
    (∀ a : Aerodrome, aerodromeCodec.val a = true →
      aerodromeDecode (aerodromeEncode a) = some a)
    ∧ (∀ compress decompress : List Nat → List Nat,
        (∀ l, decompress (compress l) = l) →
        ∀ c : Config, configCodec.val c = true →
          configLoad decompress (configSave compress c) = some c)
    ∧ (∀ compress decompress : List Nat → List Nat,
        (∀ l, decompress (compress l) = l) →
        ∀ m : Maps, mapsCodec.val m = true →
          mapsLoad decompress (mapsSave compress m) = some m)
    ∧ (∀ (compress : List Nat → List Nat) (c : Config),
        configSave compress c = MAGIC ++ [0x00, 0x01] ++ compress (configCodec.enc c))
    ∧ (∀ (compress : List Nat → List Nat) (m : Maps),
        mapsSave compress m = MAGIC ++ [0x80, 0x02] ++ compress (mapsCodec.enc m)) := by
  refine ⟨?_, ?_, ?_, ?_, ?_⟩
  · intro a hv
    unfold aerodromeDecode aerodromeEncode
    rw [← List.append_nil (aerodromeCodec.enc a), aerodromeCodec.rt a [] hv]
  · intro compress decompress hcd c hv
    exact loadBytes_saveBytes configCodec 0x0001 compress decompress hcd c hv
  · intro compress decompress hcd m hv
    exact loadBytes_saveBytes mapsCodec 0x8002 compress decompress hcd m hv
  · intro compress c
    rfl
  · intro compress m
    rfl

/-- The C8 round-trips and framing facts at concrete values, with the
identity as the (lossless) compressor pair. -/

theorem C8_witness :
    aerodromeDecode (aerodromeEncode aeroTiny) = some aeroTiny
    ∧ configLoad id (configSave id configTiny) = some configTiny
    ∧ mapsLoad id (mapsSave id mapsTiny) = some mapsTiny
    ∧ configSave id configTiny = MAGIC ++ [0x00, 0x01] ++ configCodec.enc configTiny
    ∧ mapsSave id mapsTiny = MAGIC ++ [0x80, 0x02] ++ mapsCodec.enc mapsTiny :=
  ⟨C8_roundtrip_and_framing.1 aeroTiny (by decide),
   C8_roundtrip_and_framing.2.1 id id (fun l => rfl) configTiny (by decide),
   C8_roundtrip_and_framing.2.2.1 id id (fun l => rfl) mapsTiny (by decide),
   C8_roundtrip_and_framing.2.2.2.1 id configTiny,
   C8_roundtrip_and_framing.2.2.2.2 id mapsTiny⟩

end Bars

